import Mathlib

/-!
Verification of the guess-song-game room/session server.

Shallow embedding of `src/server.js`: the room registry, the join /
startGame / answer / disconnect handlers and the deferred round-advance
timer, together with the option generator.

Randomness (`Math.random`) is modelled by an oracle `g : Nat → Nat`
supplied per shuffle invocation; the Fisher–Yates index `j` drawn for
position `i` is `g i % (i + 1)`, which ranges over `[0, i]` exactly as
`Math.floor(Math.random() * (i + 1))` does.

The wire transport (socket.io) is modelled at its interface boundary:
each handler returns the list of emитted events, tagged with their target
(a whole room, or a single socket).  The `setTimeout` of the answer
handler is modelled by a multiset of pending room ids in the server
state; a `timerFire` event is enabled only when a timer is pending for
that room, and consumes it.
-/

namespace GuessSong

/-- A song record produced by the (external) asset scan: `{title, audioUrl}`. -/
structure Song where
  title : String
  audioUrl : String
deriving DecidableEq, Repr

/-- A player entry: `{name, score}` (server.js line 136). -/
structure Player where
  name : String
  score : Nat
deriving DecidableEq, Repr

/-- The current question of a room (server.js lines 111–116). -/
structure Question where
  title : String
  audioUrl : String
  correctIndex : Nat
  winnerSocketId : Option String
deriving DecidableEq, Repr

/-- Room state (server.js lines 79–87).  `players` is an association list
keyed by socket id, mirroring the insertion-ordered JS object. -/
structure Room where
  id : String
  hostId : Option String
  players : List (String × Player)
  gameQuestions : List Song
  gameIndex : Nat
  currentQuestion : Option Question
  roundActive : Bool
deriving DecidableEq, Repr

/-! ## Association-list primitives (JS objects / the rooms Map) -/

/-- First-match lookup in an association list. -/
def findA {β : Type} : List (String × β) → String → Option β
  | [], _ => none
  | (k, v) :: rest, k' => if k = k' then some v else findA rest k'

/-- Insert-or-overwrite, keeping the original key position (JS object
assignment / `Map.set`). -/
def setA {β : Type} : List (String × β) → String → β → List (String × β)
  | [], k, v => [(k, v)]
  | (k', v') :: rest, k, v =>
      if k' = k then (k, v) :: rest else (k', v') :: setA rest k v

/-- Key removal (JS `delete` / `Map.delete`).  Keys are unique by
construction, so removing every binding of `k` coincides with JS. -/
def eraseA {β : Type} : List (String × β) → String → List (String × β)
  | [], _ => []
  | (k', v') :: rest, k =>
      if k' = k then eraseA rest k else (k', v') :: eraseA rest k

/-! ## Fisher–Yates shuffle (server.js lines 51–56) -/

/-- Swap the entries at positions `i` and `j` (`[arr[i], arr[j]] = [arr[j], arr[i]]`). -/
def swapL {α : Type} (l : List α) (i j : Nat) : List α :=
  match l[i]?, l[j]? with
  | some a, some b => (l.set i b).set j a
  | _, _ => l

/-- The loop of `shuffle`: `for (let i = n; i > 0; i--) swap i (g i % (i+1))`. -/
def shuffleGo {α : Type} (g : Nat → Nat) : Nat → List α → List α
  | 0, l => l
  | i + 1, l => shuffleGo g i (swapL l (i + 1) (g (i + 1) % (i + 2)))

/-- In-place Fisher–Yates shuffle with random oracle `g`. -/
def shuffleL {α : Type} (g : Nat → Nat) (l : List α) : List α :=
  shuffleGo g (l.length - 1) l

/-- First index of `c` (JS `indexOf`; `c` is always present at the call site,
so the out-of-range value returned on absence is irrelevant). -/
def idxOfS : List String → String → Nat
  | [], _ => 0
  | t :: rest, c => if t = c then 0 else idxOfS rest c + 1

/-- Result record of `generateOptions`. -/
structure GenOptions where
  options : List String
  correctIndex : Nat
deriving DecidableEq, Repr

/-- The option generator `generateOptions` (server.js lines 59–72): filter the correct title out of
the bank's titles, shuffle, take 3 wrong options, prepend the correct title,
shuffle again, and record the index of the correct title. -/
def generateOptions (songs : List Song) (g1 g2 : Nat → Nat) (correctTitle : String) :
    GenOptions :=
  let titles := (songs.map Song.title).filter (fun t => t ≠ correctTitle)
  let wrong := (shuffleL g1 titles).take 3
  let options := shuffleL g2 (correctTitle :: wrong)
  { options := options, correctIndex := idxOfS options correctTitle }

/-! ## Server state, events, emits -/

/-- Target of an emitted event: a whole room (`io.to(roomId)`) or one socket
(`io.to(socket.id)`). -/
inductive Target where
  | toRoom (roomId : String)
  | toSock (sid : String)
deriving DecidableEq, Repr

/-- Payloads of the six outbound events. -/
inductive Payload where
  | roomState (roomId : String) (hostId : Option String) (players : List (String × Player))
  | gameStart (total : Nat)
  | question (audioUrl : String) (options : List String) (index total : Nat)
  | answerResult (isCorrect : Bool)
  | roundResult (correctIndex : Nat) (winnerSid winnerName : String) (winnerScore : Nat)
      (players : List (String × Player))
  | gameEnd (players : List (String × Player))
deriving DecidableEq, Repr

/-- One emitted event. -/
structure Emit where
  target : Target
  payload : Payload
deriving DecidableEq, Repr

/-- Whole-server state: the `rooms` map, each socket's `socket.data.roomId`,
and the multiset of pending deferred round-advances (scheduled `setTimeout`s,
keyed by the captured room id). -/
structure ServerState where
  rooms : List (String × Room)
  socketRoom : List (String × String)
  pending : List String
deriving DecidableEq, Repr

/-- The state at process start: no rooms, no socket associations, no timers. -/
def initState : ServerState := { rooms := [], socketRoom := [], pending := [] }

/-- A fresh room as built by `getOrCreateRoom` (server.js lines 79–87). -/
def freshRoom (roomId : String) : Room :=
  { id := roomId, hostId := none, players := [], gameQuestions := [],
    gameIndex := 0, currentQuestion := none, roundActive := false }

/-- The registry fetch-or-create `getOrCreateRoom` (server.js lines 77–90). -/
def getOrCreateRoom (rooms : List (String × Room)) (roomId : String) : Room :=
  match findA rooms roomId with
  | some room => room
  | none => freshRoom roomId

/-- The round starter `startNextRound` (server.js lines 93–126): re-fetch the room by id; if
absent, do nothing; if the cursor is exhausted, broadcast `gameEnd`; otherwise
draw the next song, advance the cursor, generate options, install the new
round and broadcast `question` with the post-increment 1-based index. -/
def startNextRound (songs : List Song) (g1 g2 : Nat → Nat) (s : ServerState)
    (roomId : String) : ServerState × List Emit :=
  match findA s.rooms roomId with
  | none => (s, [])
  | some room =>
    if h : room.gameIndex < room.gameQuestions.length then
      let song := room.gameQuestions.get ⟨room.gameIndex, h⟩
      let go := generateOptions songs g1 g2 song.title
      let room' := { room with
        gameIndex := room.gameIndex + 1,
        currentQuestion := some
          { title := song.title, audioUrl := song.audioUrl,
            correctIndex := go.correctIndex, winnerSocketId := none },
        roundActive := true }
      ({ s with rooms := setA s.rooms roomId room' },
       [⟨Target.toRoom roomId,
         Payload.question song.audioUrl go.options (room.gameIndex + 1)
           room.gameQuestions.length⟩])
    else
      (s, [⟨Target.toRoom roomId, Payload.gameEnd room.players⟩])

/-- The room after a join (server.js lines 134–136): the joiner becomes host
when the room had none, and their Player entry is inserted/overwritten with
`{name, score: 0}`. -/
def joinedRoom (room0 : Room) (sid name : String) : Room :=
  if room0.hostId = none then
    { room0 with hostId := some sid,
                 players := setA room0.players sid { name := name, score := 0 } }
  else
    { room0 with players := setA room0.players sid { name := name, score := 0 } }

/-- The `joinRoom` handler (server.js lines 131–145). -/
def onJoinRoom (s : ServerState) (sid roomId name : String) : ServerState × List Emit :=
  ({ s with
      rooms := setA s.rooms roomId (joinedRoom (getOrCreateRoom s.rooms roomId) sid name),
      socketRoom := setA s.socketRoom sid roomId },
   [⟨Target.toRoom roomId, Payload.roomState roomId
      (joinedRoom (getOrCreateRoom s.rooms roomId) sid name).hostId
      (joinedRoom (getOrCreateRoom s.rooms roomId) sid name).players⟩])

theorem joinedRoom_roundActive (room0 : Room) (sid name : String) :
    (joinedRoom room0 sid name).roundActive = room0.roundActive := by
  rw [joinedRoom]
  split <;> rfl

theorem joinedRoom_currentQuestion (room0 : Room) (sid name : String) :
    (joinedRoom room0 sid name).currentQuestion = room0.currentQuestion := by
  rw [joinedRoom]
  split <;> rfl

theorem joinedRoom_gameQuestions (room0 : Room) (sid name : String) :
    (joinedRoom room0 sid name).gameQuestions = room0.gameQuestions := by
  rw [joinedRoom]
  split <;> rfl

theorem joinedRoom_gameIndex (room0 : Room) (sid name : String) :
    (joinedRoom room0 sid name).gameIndex = room0.gameIndex := by
  rw [joinedRoom]
  split <;> rfl

theorem joinedRoom_players (room0 : Room) (sid name : String) :
    (joinedRoom room0 sid name).players
      = setA room0.players sid { name := name, score := 0 } := by
  rw [joinedRoom]
  split <;> rfl

theorem joinedRoom_hostId (room0 : Room) (sid name : String) :
    (joinedRoom room0 sid name).hostId = some (room0.hostId.getD sid) := by
  rw [joinedRoom]
  cases h : room0.hostId with
  | none => simp [h]
  | some w => simp [h]

/-- The room as reset by `startGame`: a fresh question list and cursor 0
(server.js lines 158–159). -/
def resetRoom (room : Room) (qs : List Song) : Room :=
  { room with gameQuestions := qs, gameIndex := 0 }

/-- The `startGame` handler (server.js lines 148–166): only the host of an
existing room may start; a fresh random 10-question game is drawn, `gameStart`
is broadcast, and the first round starts immediately. -/
def onStartGame (songs : List Song) (s : ServerState) (sid : String)
    (gq g1 g2 : Nat → Nat) : ServerState × List Emit :=
  match findA s.socketRoom sid with
  | none => (s, [])
  | some roomId =>
    match findA s.rooms roomId with
    | none => (s, [])
    | some room =>
      if room.hostId = some sid then
        let qs := (shuffleL gq songs).take 10
        let s1 : ServerState := { s with rooms := setA s.rooms roomId (resetRoom room qs) }
        let r2 := startNextRound songs g1 g2 s1 roomId
        (r2.1, ⟨Target.toRoom roomId, Payload.gameStart qs.length⟩ :: r2.2)
      else (s, [])

/-- The `answer` handler (server.js lines 169–205): dropped when there is no
room, no active round, no current question, or the sender is not a player;
otherwise the sender is unicast `answerResult`; then, if no winner is recorded
yet and the answer is correct, the sender becomes the round's winner, the
round is deactivated, the score incremented, `roundResult` broadcast and a
deferred round-advance scheduled. -/
def onAnswer (s : ServerState) (sid : String) (optionIndex : Nat) :
    ServerState × List Emit :=
  match findA s.socketRoom sid with
  | none => (s, [])
  | some roomId =>
    match findA s.rooms roomId with
    | none => (s, [])
    | some room =>
      match room.currentQuestion with
      | none => (s, [])
      | some q =>
        if room.roundActive then
          match findA room.players sid with
          | none => (s, [])
          | some player =>
            let isCorrect : Bool := optionIndex = q.correctIndex
            let fb : Emit := ⟨Target.toSock sid, Payload.answerResult isCorrect⟩
            if q.winnerSocketId.isSome then (s, [fb])
            else if isCorrect then
              let player' : Player := { player with score := player.score + 1 }
              let room' := { room with
                currentQuestion := some { q with winnerSocketId := some sid },
                roundActive := false,
                players := setA room.players sid player' }
              ({ s with rooms := setA s.rooms roomId room',
                        pending := s.pending ++ [roomId] },
               [fb, ⟨Target.toRoom roomId,
                  Payload.roundResult q.correctIndex sid player.name player'.score
                    room'.players⟩])
            else (s, [fb])
        else (s, [])

/-- The `disconnect` handler (server.js lines 208–229): remove the player,
reassign the host to the first remaining player if the host left, delete the
room (with no broadcast) if it became empty, else broadcast the new state. -/
def onDisconnect (s : ServerState) (sid : String) : ServerState × List Emit :=
  match findA s.socketRoom sid with
  | none => (s, [])
  | some roomId =>
    match findA s.rooms roomId with
    | none => (s, [])
    | some room =>
      let players' := eraseA room.players sid
      let hostId' := if room.hostId = some sid
                     then (players'.map Prod.fst).head?
                     else room.hostId
      if players'.isEmpty then
        ({ s with rooms := eraseA s.rooms roomId }, [])
      else
        let room' := { room with players := players', hostId := hostId' }
        ({ s with rooms := setA s.rooms roomId room' },
         [⟨Target.toRoom roomId, Payload.roomState roomId hostId' players'⟩])

/-- Inbound events.  The random oracles consumed by each shuffle in the
handler are carried on the event. -/
inductive Event where
  | joinRoom (sid roomId name : String)
  | startGame (sid : String) (gq g1 g2 : Nat → Nat)
  | answer (sid : String) (optionIndex : Nat)
  | disconnect (sid : String)
  | timerFire (roomId : String) (g1 g2 : Nat → Nat)

/-- One step of the server.  `timerFire` is enabled (`some`) only when a
deferred round-advance is actually pending for that room, and consumes it;
all externally generated events are always enabled. -/
def step (songs : List Song) (s : ServerState) : Event → Option (ServerState × List Emit)
  | Event.joinRoom sid roomId name => some (onJoinRoom s sid roomId name)
  | Event.startGame sid gq g1 g2 => some (onStartGame songs s sid gq g1 g2)
  | Event.answer sid i => some (onAnswer s sid i)
  | Event.disconnect sid => some (onDisconnect s sid)
  | Event.timerFire roomId g1 g2 =>
      if roomId ∈ s.pending then
        some (startNextRound songs g1 g2
          { s with pending := s.pending.erase roomId } roomId)
      else none

/-- Run one event, treating a disabled event as a stutter step. -/
def execStep (songs : List Song) (s : ServerState) (e : Event) : ServerState × List Emit :=
  match step songs s e with
  | some r => r
  | none => (s, [])

/-- The state after a sequence of events. -/
def execState (songs : List Song) (s : ServerState) : List Event → ServerState
  | [] => s
  | e :: t => execState songs (execStep songs s e).1 t

/-- The emitted events of a whole run, in order. -/
def execOut (songs : List Song) (s : ServerState) : List Event → List Emit
  | [] => []
  | e :: t => (execStep songs s e).2 ++ execOut songs (execStep songs s e).1 t

/-- A state is reachable when some event sequence produces it from the start
state. -/
def Reachable (songs : List Song) (s : ServerState) : Prop :=
  ∃ t : List Event, execState songs initState t = s

/-! ## Lemmas about the association-list primitives -/

theorem findA_setA_self {β : Type} (m : List (String × β)) (k : String) (v : β) :
    findA (setA m k v) k = some v := by
  induction m with
  | nil => simp [setA, findA]
  | cons p rest ih =>
    obtain ⟨k', v'⟩ := p
    by_cases h : k' = k
    · simp [setA, h, findA]
    · simp [setA, h, findA, ih]

theorem findA_setA_ne {β : Type} (m : List (String × β)) {k k' : String} (v : β)
    (h : k' ≠ k) : findA (setA m k v) k' = findA m k' := by
  induction m with
  | nil => simp [setA, findA, Ne.symm h]
  | cons p rest ih =>
    obtain ⟨k₀, v₀⟩ := p
    by_cases hk : k₀ = k
    · subst hk
      simp [setA, findA, Ne.symm h]
    · simp [setA, hk, findA, ih]

theorem findA_eraseA_self {β : Type} (m : List (String × β)) (k : String) :
    findA (eraseA m k) k = none := by
  induction m with
  | nil => simp [eraseA, findA]
  | cons p rest ih =>
    obtain ⟨k₀, v₀⟩ := p
    by_cases hk : k₀ = k
    · simp [eraseA, hk, ih]
    · simp [eraseA, hk, findA, ih]

theorem findA_eraseA_ne {β : Type} (m : List (String × β)) {k k' : String}
    (h : k' ≠ k) : findA (eraseA m k) k' = findA m k' := by
  induction m with
  | nil => simp [eraseA]
  | cons p rest ih =>
    obtain ⟨k₀, v₀⟩ := p
    by_cases hk : k₀ = k
    · subst hk
      simp [eraseA, findA, Ne.symm h, ih]
    · simp [eraseA, hk, findA, ih]

theorem findA_mem_keys {β : Type} {m : List (String × β)} {k : String} {v : β}
    (h : findA m k = some v) : k ∈ m.map Prod.fst := by
  induction m with
  | nil => simp [findA] at h
  | cons p rest ih =>
    obtain ⟨k₀, v₀⟩ := p
    by_cases hk : k₀ = k
    · simp [hk]
    · simp [findA, hk] at h
      simp [ih h]

/-! ## The shuffle is a permutation -/

theorem cons_set_perm {α : Type} :
    ∀ (xs : List α) (k : Nat) (x b : α), xs[k]? = some b →
      (b :: xs.set k x).Perm (x :: xs)
  | [], k, _, _, h => by simp at h
  | c :: cs, 0, x, b, h => by
      obtain rfl : c = b := by simpa using h
      simpa using List.Perm.swap x c cs
  | c :: cs, k + 1, x, b, h => by
      simp only [List.getElem?_cons_succ] at h
      have ih := cons_set_perm cs k x b h
      have h1 : (b :: (c :: cs).set (k + 1) x).Perm (c :: b :: cs.set k x) := by
        simpa using List.Perm.swap c b (cs.set k x)
      have h2 : (c :: b :: cs.set k x).Perm (c :: x :: cs) := ih.cons c
      have h3 : (c :: x :: cs).Perm (x :: c :: cs) := List.Perm.swap x c cs
      exact (h1.trans h2).trans h3

theorem set_set_perm {α : Type} :
    ∀ (l : List α) (i j : Nat) (a b : α), l[i]? = some a → l[j]? = some b →
      ((l.set i b).set j a).Perm l
  | [], _, _, _, _, hi, _ => by simp at hi
  | x :: xs, 0, 0, a, b, hi, hj => by
      obtain rfl : x = a := by simpa using hi
      simp
  | x :: xs, 0, j + 1, a, b, hi, hj => by
      obtain rfl : x = a := by simpa using hi
      simp only [List.getElem?_cons_succ] at hj
      simpa using cons_set_perm xs j x b hj
  | x :: xs, i + 1, 0, a, b, hi, hj => by
      obtain rfl : x = b := by simpa using hj
      simp only [List.getElem?_cons_succ] at hi
      simpa using cons_set_perm xs i x a hi
  | x :: xs, i + 1, j + 1, a, b, hi, hj => by
      simp only [List.getElem?_cons_succ] at hi hj
      simpa using (set_set_perm xs i j a b hi hj).cons x

theorem swapL_perm {α : Type} (l : List α) (i j : Nat) : (swapL l i j).Perm l := by
  unfold swapL
  cases hi : l[i]? with
  | none => exact List.Perm.refl l
  | some a =>
    cases hj : l[j]? with
    | none => exact List.Perm.refl l
    | some b => exact set_set_perm l i j a b hi hj

theorem shuffleGo_perm {α : Type} (g : Nat → Nat) :
    ∀ (n : Nat) (l : List α), (shuffleGo g n l).Perm l
  | 0, l => List.Perm.refl l
  | n + 1, l =>
      (shuffleGo_perm g n _).trans (swapL_perm l (n + 1) (g (n + 1) % (n + 2)))

theorem shuffleL_perm {α : Type} (g : Nat → Nat) (l : List α) :
    (shuffleL g l).Perm l :=
  shuffleGo_perm g (l.length - 1) l

/-! ## Properties of the option generator (claim C3) -/

theorem idxOfS_spec : ∀ (l : List String) (c : String), c ∈ l →
    l[idxOfS l c]? = some c
  | [], c, h => by simp at h
  | t :: rest, c, h => by
      by_cases ht : t = c
      · simp [idxOfS, ht]
      · have hc : c ∈ rest := by
          rcases List.mem_cons.mp h with h' | h'
          · exact absurd h'.symm ht
          · exact h'
        simp [idxOfS, ht, idxOfS_spec rest c hc]

/-- The bank's title list minus the correct title (server.js line 60). -/
def wrongCandidates (songs : List Song) (correctTitle : String) : List String :=
  (songs.map Song.title).filter (fun t => t ≠ correctTitle)

theorem not_mem_wrongCandidates (songs : List Song) (c : String) :
    c ∉ wrongCandidates songs c := by
  intro h
  have := (List.mem_filter.mp h).2
  simp at this

theorem count_wrong_zero (songs : List Song) (g1 : Nat → Nat) (c : String) :
    ((shuffleL g1 (wrongCandidates songs c)).take 3).count c = 0 := by
  have h1 : ((shuffleL g1 (wrongCandidates songs c)).take 3).count c
      ≤ (shuffleL g1 (wrongCandidates songs c)).count c :=
    (List.take_sublist 3 _).count_le c
  have h2 : (shuffleL g1 (wrongCandidates songs c)).count c
      = (wrongCandidates songs c).count c :=
    (shuffleL_perm g1 _).count_eq c
  have h3 : (wrongCandidates songs c).count c = 0 :=
    List.count_eq_zero.mpr (not_mem_wrongCandidates songs c)
  omega

theorem generateOptions_perm (songs : List Song) (g1 g2 : Nat → Nat) (c : String) :
    (generateOptions songs g1 g2 c).options.Perm
      (c :: (shuffleL g1 (wrongCandidates songs c)).take 3) :=
  shuffleL_perm g2 _

theorem generateOptions_count_one (songs : List Song) (g1 g2 : Nat → Nat)
    (c : String) : (generateOptions songs g1 g2 c).options.count c = 1 := by
  have h := (generateOptions_perm songs g1 g2 c).count_eq c
  rw [h, List.count_cons_self, count_wrong_zero]

theorem generateOptions_correctIndex (songs : List Song) (g1 g2 : Nat → Nat)
    (c : String) :
    (generateOptions songs g1 g2 c).options[(generateOptions songs g1 g2 c).correctIndex]?
      = some c := by
  have hmem : c ∈ (generateOptions songs g1 g2 c).options := by
    have := generateOptions_count_one songs g1 g2 c
    exact List.count_pos_iff.mp (by omega)
  have : (generateOptions songs g1 g2 c).correctIndex
      = idxOfS (generateOptions songs g1 g2 c).options c := rfl
  rw [this]
  exact idxOfS_spec _ c hmem

theorem generateOptions_length_le (songs : List Song) (g1 g2 : Nat → Nat)
    (c : String) : (generateOptions songs g1 g2 c).options.length ≤ 4 := by
  have h := (generateOptions_perm songs g1 g2 c).length_eq
  have := List.length_take 3 (shuffleL g1 (wrongCandidates songs c))
  simp only [h, List.length_cons]
  omega

theorem filter_ne_of_not_mem {l : List String} {c : String} (h : c ∉ l) :
    l.filter (fun t => t ≠ c) = l :=
  List.filter_eq_self.mpr (fun b hb => by
    have hbc : b ≠ c := fun e => h (e ▸ hb)
    simpa using hbc)

theorem length_filter_ne_of_nodup :
    ∀ {l : List String}, l.Nodup → ∀ (c : String),
      l.length ≤ (l.filter (fun t => t ≠ c)).length + 1
  | [], _, _ => by simp
  | a :: rest, h, c => by
      have hrest : rest.Nodup := h.of_cons
      have hrec := length_filter_ne_of_nodup hrest c
      by_cases hac : a = c
      · subst hac
        have hnotin : a ∉ rest := (List.nodup_cons.mp h).1
        have heq := filter_ne_of_not_mem hnotin
        simp only [ne_eq, decide_not] at heq ⊢
        simp [List.filter_cons, heq]
      · simp only [ne_eq, decide_not] at hrec ⊢
        simp only [List.filter_cons]
        rw [decide_eq_false hac]
        simp
        omega

theorem generateOptions_four_distinct (songs : List Song) (g1 g2 : Nat → Nat)
    (c : String) (hnd : (songs.map Song.title).Nodup) (hlen : 4 ≤ songs.length) :
    (generateOptions songs g1 g2 c).options.length = 4 ∧
      (generateOptions songs g1 g2 c).options.Nodup := by
  have hwc_nodup : (wrongCandidates songs c).Nodup := hnd.filter _
  have hwc_len : 3 ≤ (wrongCandidates songs c).length := by
    have h1 := length_filter_ne_of_nodup hnd c
    have h2 : (songs.map Song.title).length = songs.length := List.length_map _ _
    unfold wrongCandidates
    omega
  have hsh_perm := shuffleL_perm g1 (wrongCandidates songs c)
  have hsh_len : (shuffleL g1 (wrongCandidates songs c)).length
      = (wrongCandidates songs c).length := hsh_perm.length_eq
  have hsh_nodup : (shuffleL g1 (wrongCandidates songs c)).Nodup :=
    hsh_perm.symm.nodup hwc_nodup
  have hwrong_nodup : ((shuffleL g1 (wrongCandidates songs c)).take 3).Nodup :=
    hsh_nodup.sublist (List.take_sublist 3 _)
  have hwrong_len : ((shuffleL g1 (wrongCandidates songs c)).take 3).length = 3 := by
    rw [List.length_take]
    omega
  have hc_notin : c ∉ (shuffleL g1 (wrongCandidates songs c)).take 3 := by
    intro hmem
    have := count_wrong_zero songs g1 c
    have := List.count_pos_iff.mpr hmem
    omega
  have hperm := generateOptions_perm songs g1 g2 c
  constructor
  · rw [hperm.length_eq, List.length_cons, hwrong_len]
  · exact hperm.symm.nodup (List.nodup_cons.mpr ⟨hc_notin, hwrong_nodup⟩)

theorem generateOptions_degrade (songs : List Song) (g1 g2 : Nat → Nat)
    (c : String) (hshort : (wrongCandidates songs c).length < 3) :
    (generateOptions songs g1 g2 c).options.Perm (c :: wrongCandidates songs c) := by
  have hsh_perm := shuffleL_perm g1 (wrongCandidates songs c)
  have htake : (shuffleL g1 (wrongCandidates songs c)).take 3
      = shuffleL g1 (wrongCandidates songs c) := by
    apply List.take_of_length_le
    rw [hsh_perm.length_eq]
    omega
  have hperm := generateOptions_perm songs g1 g2 c
  rw [htake] at hperm
  exact hperm.trans (hsh_perm.cons c)

/-! ## Concrete fixtures for witnesses and counterexamples -/

/-- A five-song bank with distinct titles. -/
def songs5 : List Song :=
  [{ title := "A", audioUrl := "a" }, { title := "B", audioUrl := "b" },
   { title := "C", audioUrl := "c" }, { title := "D", audioUrl := "d" },
   { title := "E", audioUrl := "e" }]

/-- A singleton bank, used for the concrete game traces. -/
def songs1 : List Song := [{ title := "A", audioUrl := "a" }]

/-- The constant-zero random oracle. -/
def rand0 : Nat → Nat := fun _ => 0

/-- Claim C3: for every correct title and bank, `generateOptions` returns at
most 4 options, containing the correct title exactly once with
`correctIndex` pointing at its position; when the bank consists of at least
4 distinct titles the result is exactly 4 distinct titles; when fewer than 3
wrong candidates exist, the result is the correct title together with all
available wrong candidates (fewer than 4 options) rather than a failure. -/
theorem claim_C3_generateOptions (songs : List Song) (g1 g2 : Nat → Nat)
    (c : String) :
    (generateOptions songs g1 g2 c).options.length ≤ 4 ∧
    (generateOptions songs g1 g2 c).options.count c = 1 ∧
    (generateOptions songs g1 g2 c).options[(generateOptions songs g1 g2 c).correctIndex]?
      = some c ∧
    ((songs.map Song.title).Nodup → 4 ≤ songs.length →
      (generateOptions songs g1 g2 c).options.length = 4 ∧
        (generateOptions songs g1 g2 c).options.Nodup) ∧
    ((wrongCandidates songs c).length < 3 →
      (generateOptions songs g1 g2 c).options.Perm (c :: wrongCandidates songs c)) :=
  ⟨generateOptions_length_le songs g1 g2 c,
   generateOptions_count_one songs g1 g2 c,
   generateOptions_correctIndex songs g1 g2 c,
   fun h1 h2 => generateOptions_four_distinct songs g1 g2 c h1 h2,
   fun h => generateOptions_degrade songs g1 g2 c h⟩

/-- Witness for C3 at concrete banks: the rich case on the five-song bank,
the degraded case on the singleton bank. -/
theorem claim_C3_generateOptions_witness :
    ((songs5.map Song.title).Nodup ∧ 4 ≤ songs5.length ∧
      (generateOptions songs5 rand0 rand0 "C").options.length = 4 ∧
      (generateOptions songs5 rand0 rand0 "C").options.Nodup) ∧
    ((wrongCandidates songs1 "A").length < 3 ∧
      (generateOptions songs1 rand0 rand0 "A").options.Perm
        ("A" :: wrongCandidates songs1 "A")) :=
  ⟨⟨by decide, by decide,
    ((claim_C3_generateOptions songs5 rand0 rand0 "C").2.2.2.1 (by decide) (by decide)).1,
    ((claim_C3_generateOptions songs5 rand0 rand0 "C").2.2.2.1 (by decide) (by decide)).2⟩,
   ⟨by decide,
    (claim_C3_generateOptions songs1 rand0 rand0 "A").2.2.2.2 (by decide)⟩⟩

/-! ## Per-handler claims (C6–C10) -/

/-- Claim C9: every join inserts/overwrites the joiner's Player entry with
`{name, score := 0}` (a rejoin resets the score), makes the joiner host
exactly when the room had no host (`hostId.getD sid`), records the joiner's
current room, broadcasts `roomState {roomId, hostId, players}` to the room,
and touches no other room. -/
theorem claim_C9_join (songs : List Song) (s : ServerState)
    (sid roomId name : String) :
    ∃ (s' : ServerState) (room' : Room),
      step songs s (Event.joinRoom sid roomId name) = some
        (s', [⟨Target.toRoom roomId,
               Payload.roomState roomId room'.hostId room'.players⟩]) ∧
      findA s'.rooms roomId = some room' ∧
      findA room'.players sid = some { name := name, score := 0 } ∧
      room'.hostId = some ((getOrCreateRoom s.rooms roomId).hostId.getD sid) ∧
      s'.socketRoom = setA s.socketRoom sid roomId ∧
      s'.pending = s.pending ∧
      (∀ r', r' ≠ roomId → findA s'.rooms r' = findA s.rooms r') := by
  refine ⟨_, joinedRoom (getOrCreateRoom s.rooms roomId) sid name, rfl,
    findA_setA_self _ _ _, ?_, joinedRoom_hostId _ _ _, rfl, rfl, ?_⟩
  · rw [joinedRoom_players]
    exact findA_setA_self _ _ _
  · intro r' hr'
    exact findA_setA_ne s.rooms _ hr'

/-- Witness for C9: `p2` joins the existing room `R` of `sJoin2`; their
entry is inserted with score 0, the broadcast goes to the room, and the
unrelated room id `S` is untouched. -/
theorem claim_C9_join_witness :
    ∃ (s' : ServerState) (room' : Room),
      step songs1 sJoin2 (Event.joinRoom "p2" "R" "P2") = some
        (s', [⟨Target.toRoom "R", Payload.roomState "R" room'.hostId room'.players⟩]) ∧
      findA s'.rooms "R" = some room' ∧
      findA room'.players "p2" = some { name := "P2", score := 0 } ∧
      (("S" : String) ≠ "R" ∧ findA s'.rooms "S" = findA sJoin2.rooms "S") := by
  obtain ⟨s', room', h1, h2, h3, h4, h5, h6, h7⟩ :=
    claim_C9_join songs1 sJoin2 "p2" "R" "P2"
  exact ⟨s', room', h1, h2, h3, ⟨by decide, h7 "S" (by decide)⟩⟩

/-- Claim C6: on disconnect of a connection whose room exists: its Player entry
is removed; if the remaining player set is empty the room is deleted from the
registry and nothing is broadcast; otherwise the room is kept with the host
reassigned to a remaining member whenever the host left, and the updated
`roomState {roomId, hostId, players}` is broadcast. -/
theorem claim_C6_disconnect (songs : List Song) (s : ServerState)
    (sid roomId : String) (room : Room)
    (hsock : findA s.socketRoom sid = some roomId)
    (hroom : findA s.rooms roomId = some room) :
    findA (eraseA room.players sid) sid = none ∧
    (eraseA room.players sid = [] →
      step songs s (Event.disconnect sid) =
        some ({ s with rooms := eraseA s.rooms roomId }, [])) ∧
    (eraseA room.players sid ≠ [] →
      ∃ (host' : Option String) (room' : Room),
        room' = { room with players := eraseA room.players sid, hostId := host' } ∧
        step songs s (Event.disconnect sid) =
          some ({ s with rooms := setA s.rooms roomId room' },
               [⟨Target.toRoom roomId,
                  Payload.roomState roomId host' (eraseA room.players sid)⟩]) ∧
        (room.hostId = some sid →
          ∃ m, host' = some m ∧ m ∈ (eraseA room.players sid).map Prod.fst) ∧
        (room.hostId ≠ some sid → host' = room.hostId)) := by
  refine ⟨findA_eraseA_self room.players sid, ?_, ?_⟩
  · intro hempty
    simp [step, onDisconnect, hsock, hroom, hempty]
  · intro hne
    have hemp : (eraseA room.players sid).isEmpty = false := by
      cases h : eraseA room.players sid with
      | nil => exact absurd h hne
      | cons a l => simp
    refine ⟨if room.hostId = some sid
            then ((eraseA room.players sid).map Prod.fst).head?
            else room.hostId, _, rfl, ?_, ?_, ?_⟩
    · simp [step, onDisconnect, hsock, hroom, hemp]
    · intro hhost
      cases h : eraseA room.players sid with
      | nil => exact absurd h hne
      | cons p l =>
        exact ⟨p.1, by simp [hhost, h], by simp [h]⟩
    · intro hhost
      simp [hhost]

/-- Claim C7: a deferred round-advance that fires for a room id no longer in
the registry is a no-op: the registry, the socket-room associations and the
remaining timers for other rooms are untouched (only the fired timer itself
is consumed) and nothing is emitted. -/
theorem claim_C7_staleTimer (songs : List Song) (s : ServerState)
    (roomId : String) (g1 g2 : Nat → Nat) (s' : ServerState) (out : List Emit)
    (habs : findA s.rooms roomId = none)
    (hstep : step songs s (Event.timerFire roomId g1 g2) = some (s', out)) :
    s'.rooms = s.rooms ∧ s'.socketRoom = s.socketRoom ∧ out = [] ∧
    s'.pending = s.pending.erase roomId := by
  by_cases hmem : roomId ∈ s.pending
  · simp only [step, if_pos hmem, Option.some_inj] at hstep
    rw [startNextRound, habs] at hstep
    obtain ⟨h1, h2⟩ := Prod.mk.injEq .. ▸ hstep
    subst h1
    exact ⟨rfl, rfl, h2.symm ▸ rfl, rfl⟩
  · simp [step, hmem] at hstep

/-- Claim C8: a `startGame` from a socket with no room, an unknown room, or a
non-host is silently ignored: the state is unchanged and nothing is
emitted. -/
theorem claim_C8_unauthorizedStart (songs : List Song) (s : ServerState)
    (sid : String) (gq g1 g2 : Nat → Nat)
    (h : ∀ roomId, findA s.socketRoom sid = some roomId →
         ∀ room, findA s.rooms roomId = some room → room.hostId ≠ some sid) :
    step songs s (Event.startGame sid gq g1 g2) = some (s, []) := by
  cases hs : findA s.socketRoom sid with
  | none => simp [step, onStartGame, hs]
  | some roomId =>
    cases hr : findA s.rooms roomId with
    | none => simp [step, onStartGame, hs, hr]
    | some room =>
      have hh := h roomId hs room hr
      simp [step, onStartGame, hs, hr, hh]

/-- Claim C10: a connection that joins room B after having been associated with
room A only has its most recent room remembered: the join and the later
disconnect both leave room A's registry entry (players, host, everything)
unchanged, so a stale Player entry of this connection persists in room A. -/
theorem claim_C10_rejoinFrame (songs : List Song) (s : ServerState)
    (sid roomA roomB nameB : String) (hAB : roomA ≠ roomB)
    (hprev : findA s.socketRoom sid = some roomA) :
    findA (execStep songs s (Event.joinRoom sid roomB nameB)).1.socketRoom sid
      = some roomB ∧
    findA (execStep songs s (Event.joinRoom sid roomB nameB)).1.rooms roomA
      = findA s.rooms roomA ∧
    findA (execStep songs (execStep songs s (Event.joinRoom sid roomB nameB)).1
        (Event.disconnect sid)).1.rooms roomA
      = findA s.rooms roomA := by
  have hjoin : (execStep songs s (Event.joinRoom sid roomB nameB)).1.socketRoom
      = setA s.socketRoom sid roomB := rfl
  have hsock : findA (execStep songs s (Event.joinRoom sid roomB nameB)).1.socketRoom sid
      = some roomB := by rw [hjoin]; exact findA_setA_self _ _ _
  have hroomsA : findA (execStep songs s (Event.joinRoom sid roomB nameB)).1.rooms roomA
      = findA s.rooms roomA := findA_setA_ne s.rooms _ hAB
  refine ⟨hsock, hroomsA, ?_⟩
  generalize hs1 : (execStep songs s (Event.joinRoom sid roomB nameB)).1 = s1 at hsock hroomsA
  rw [← hroomsA]
  show findA (onDisconnect s1 sid).1.rooms roomA = findA s1.rooms roomA
  cases hr : findA s1.rooms roomB with
  | none => simp [onDisconnect, hsock, hr]
  | some room =>
    by_cases hemp : (eraseA room.players sid).isEmpty = true
    · simp [onDisconnect, hsock, hr, hemp, findA_eraseA_ne s1.rooms hAB]
    · simp [onDisconnect, hsock, hr, hemp, findA_setA_ne s1.rooms _ hAB]

/-! ## Concrete states for the per-handler witnesses -/

/-- The state after `h` and `p` joined room `R` (on the singleton bank). -/
def sJoin2 : ServerState :=
  { rooms := [("R",
      { id := "R", hostId := some "h",
        players := [("h", { name := "H", score := 0 }),
                    ("p", { name := "P", score := 0 })],
        gameQuestions := [], gameIndex := 0,
        currentQuestion := none, roundActive := false })],
    socketRoom := [("h", "R"), ("p", "R")],
    pending := [] }

/-- The room stored in `sJoin2`. -/
def roomJ2 : Room :=
  { id := "R", hostId := some "h",
    players := [("h", { name := "H", score := 0 }),
                ("p", { name := "P", score := 0 })],
    gameQuestions := [], gameIndex := 0,
    currentQuestion := none, roundActive := false }

theorem sJoin2_reachable_eq :
    execState songs1 initState
      [Event.joinRoom "h" "R" "H", Event.joinRoom "p" "R" "P"] = sJoin2 := by
  decide

/-- A state with a deferred round-advance pending for the already-destroyed
room `R`: the lone player disconnected mid-pending-timer. -/
def sGone : ServerState :=
  { rooms := [], socketRoom := [("h", "R")], pending := ["R"] }

theorem sGone_reachable_eq :
    execState songs1 initState
      [Event.joinRoom "h" "R" "H", Event.startGame "h" rand0 rand0 rand0,
       Event.answer "h" 0, Event.disconnect "h"] = sGone := by
  decide

/-- Witness for C6: disconnecting the host `h` of `sJoin2`. -/
theorem claim_C6_disconnect_witness :
    (findA sJoin2.socketRoom "h" = some "R" ∧ findA sJoin2.rooms "R" = some roomJ2) ∧
      findA (eraseA roomJ2.players "h") "h" = none :=
  ⟨⟨by decide, by decide⟩,
   (claim_C6_disconnect songs1 sJoin2 "h" "R" roomJ2 (by decide) (by decide)).1⟩

/-- Witness for C7: the pending timer of `sGone` fires on the destroyed room. -/
theorem claim_C7_staleTimer_witness :
    (findA sGone.rooms "R" = none ∧
      step songs1 sGone (Event.timerFire "R" rand0 rand0) =
        some ({ rooms := [], socketRoom := [("h", "R")], pending := [] }, [])) ∧
    ({ rooms := [], socketRoom := [("h", "R")], pending := [] } : ServerState).rooms
        = sGone.rooms ∧
      ({ rooms := [], socketRoom := [("h", "R")], pending := [] } : ServerState).socketRoom
        = sGone.socketRoom ∧
      ([] : List Emit) = [] ∧
      ({ rooms := [], socketRoom := [("h", "R")], pending := [] } : ServerState).pending
        = sGone.pending.erase "R" :=
  ⟨⟨by decide, by decide⟩,
   claim_C7_staleTimer songs1 sGone "R" rand0 rand0
     { rooms := [], socketRoom := [("h", "R")], pending := [] } []
     (by decide) (by decide)⟩

/-- Witness for C8: the non-host `p` of `sJoin2` tries to start a game. -/
theorem claim_C8_unauthorizedStart_witness :
    step songs1 sJoin2 (Event.startGame "p" rand0 rand0 rand0) = some (sJoin2, []) :=
  claim_C8_unauthorizedStart songs1 sJoin2 "p" rand0 rand0 rand0 (by
    intro roomId hs room hroom
    have h1 : findA sJoin2.socketRoom "p" = some "R" := by decide
    rw [h1] at hs
    injection hs with hs
    subst hs
    have h2 : findA sJoin2.rooms "R" = some roomJ2 := by decide
    rw [h2] at hroom
    injection hroom with hroom
    subst hroom
    decide)

/-- Witness for C10: `h`, associated with room `R`, joins room `S` and then
disconnects; room `R` is untouched throughout. -/
theorem claim_C10_rejoinFrame_witness :
    (("R" : String) ≠ "S" ∧ findA sJoin2.socketRoom "h" = some "R") ∧
    (findA (execStep songs1 sJoin2 (Event.joinRoom "h" "S" "H2")).1.socketRoom "h"
        = some "S" ∧
      findA (execStep songs1 sJoin2 (Event.joinRoom "h" "S" "H2")).1.rooms "R"
        = findA sJoin2.rooms "R" ∧
      findA (execStep songs1 (execStep songs1 sJoin2 (Event.joinRoom "h" "S" "H2")).1
          (Event.disconnect "h")).1.rooms "R"
        = findA sJoin2.rooms "R") :=
  ⟨⟨by decide, by decide⟩,
   claim_C10_rejoinFrame songs1 sJoin2 "h" "R" "S" "H2" (by decide) (by decide)⟩

/-! ## The round invariant (claims C1, C2) -/

/-- An active round still awaits its winner: whenever `roundActive` is set,
the current question exists and has no recorded winner. -/
def RoomInv (room : Room) : Prop :=
  room.roundActive = true →
    ∃ q, room.currentQuestion = some q ∧ q.winnerSocketId = none

/-- Every room of a registry satisfies the round invariant. -/
def roomsInv (m : List (String × Room)) : Prop :=
  ∀ r room, findA m r = some room → RoomInv room

/-- Every room of the server state satisfies the round invariant. -/
def stateInv (s : ServerState) : Prop := roomsInv s.rooms

theorem stateInv_init : stateInv initState := by
  intro r room h
  simp [initState, findA] at h

theorem roomsInv_setA {m : List (String × Room)} (h : roomsInv m) {rid : String}
    {room' : Room} (hroom' : RoomInv room') : roomsInv (setA m rid room') := by
  intro r room hr
  by_cases hrr : r = rid
  · subst hrr
    rw [findA_setA_self] at hr
    injection hr with hr
    exact hr ▸ hroom'
  · rw [findA_setA_ne _ _ hrr] at hr
    exact h r room hr

theorem roomsInv_eraseA {m : List (String × Room)} (h : roomsInv m)
    (rid : String) : roomsInv (eraseA m rid) := by
  intro r room hr
  by_cases hrr : r = rid
  · subst hrr
    rw [findA_eraseA_self] at hr
    exact absurd hr (by simp)
  · rw [findA_eraseA_ne _ hrr] at hr
    exact h r room hr

theorem startNextRound_stateInv {songs : List Song} {g1 g2 : Nat → Nat}
    {s : ServerState} {rid : String} (h : stateInv s) :
    stateInv (startNextRound songs g1 g2 s rid).1 := by
  cases hf : findA s.rooms rid with
  | none => simpa [startNextRound, hf] using h
  | some room =>
    by_cases hlt : room.gameIndex < room.gameQuestions.length
    · simp only [startNextRound, hf, dif_pos hlt]
      exact roomsInv_setA h (fun _ => ⟨_, rfl, rfl⟩)
    · simpa [startNextRound, hf, dif_neg hlt] using h

theorem RoomInv_of_eq {room room' : Room}
    (hra : room'.roundActive = room.roundActive)
    (hcq : room'.currentQuestion = room.currentQuestion)
    (h : RoomInv room) : RoomInv room' := by
  intro ha
  rw [hcq]
  exact h (hra ▸ ha)

theorem getOrCreateRoom_inv {s : ServerState} (h : stateInv s) (rid : String) :
    RoomInv (getOrCreateRoom s.rooms rid) := by
  cases hg : findA s.rooms rid with
  | none =>
    have he : getOrCreateRoom s.rooms rid = freshRoom rid := by
      simp [getOrCreateRoom, hg]
    rw [he]
    intro ha
    simp [freshRoom] at ha
  | some room =>
    have he : getOrCreateRoom s.rooms rid = room := by
      simp [getOrCreateRoom, hg]
    rw [he]
    exact h rid room hg

theorem onJoinRoom_stateInv {s : ServerState} {sid rid name : String}
    (h : stateInv s) : stateInv (onJoinRoom s sid rid name).1 :=
  roomsInv_setA h (RoomInv_of_eq (joinedRoom_roundActive _ _ _)
    (joinedRoom_currentQuestion _ _ _) (getOrCreateRoom_inv h rid))

theorem onStartGame_stateInv {songs : List Song} {s : ServerState} {sid : String}
    {gq g1 g2 : Nat → Nat} (h : stateInv s) :
    stateInv (onStartGame songs s sid gq g1 g2).1 := by
  cases hs : findA s.socketRoom sid with
  | none => simpa [onStartGame, hs] using h
  | some rid =>
    cases hr : findA s.rooms rid with
    | none => simpa [onStartGame, hs, hr] using h
    | some room =>
      by_cases hh : room.hostId = some sid
      · simp only [onStartGame, hs, hr, if_pos hh]
        exact startNextRound_stateInv (roomsInv_setA h (fun ha => h rid room hr ha))
      · simpa [onStartGame, hs, hr, hh] using h

theorem onAnswer_stateInv {s : ServerState} {sid : String} {i : Nat}
    (h : stateInv s) : stateInv (onAnswer s sid i).1 := by
  cases hs : findA s.socketRoom sid with
  | none => simpa [onAnswer, hs] using h
  | some rid =>
    cases hr : findA s.rooms rid with
    | none => simpa [onAnswer, hs, hr] using h
    | some room =>
      cases hq : room.currentQuestion with
      | none => simpa [onAnswer, hs, hr, hq] using h
      | some q =>
        by_cases hact : room.roundActive = true
        · cases hp : findA room.players sid with
          | none => simpa [onAnswer, hs, hr, hq, hact, hp] using h
          | some player =>
            by_cases hwin : q.winnerSocketId.isSome
            · simpa [onAnswer, hs, hr, hq, hact, hp, hwin] using h
            · by_cases hcor : (decide (i = q.correctIndex) : Bool) = true
              · simp only [onAnswer, hs, hr, hq, hact, if_pos rfl, hp, hwin,
                  Bool.false_eq_true, if_false, hcor, if_true]
                exact roomsInv_setA h (fun ha => by cases ha)
              · simpa [onAnswer, hs, hr, hq, hact, hp, hwin, hcor] using h
        · simpa [onAnswer, hs, hr, hq, hact] using h

theorem onDisconnect_stateInv {s : ServerState} {sid : String}
    (h : stateInv s) : stateInv (onDisconnect s sid).1 := by
  cases hs : findA s.socketRoom sid with
  | none => simpa [onDisconnect, hs] using h
  | some rid =>
    cases hr : findA s.rooms rid with
    | none => simpa [onDisconnect, hs, hr] using h
    | some room =>
      by_cases hemp : (eraseA room.players sid).isEmpty = true
      · simp only [onDisconnect, hs, hr, hemp, if_pos rfl]
        exact roomsInv_eraseA h rid
      · simp only [onDisconnect, hs, hr, if_neg hemp]
        exact roomsInv_setA h (fun ha => h rid room hr ha)

theorem execStep_stateInv {songs : List Song} {s : ServerState} (e : Event)
    (h : stateInv s) : stateInv (execStep songs s e).1 := by
  cases e with
  | joinRoom sid rid name => exact onJoinRoom_stateInv h
  | startGame sid gq g1 g2 => exact onStartGame_stateInv h
  | answer sid i => exact onAnswer_stateInv h
  | disconnect sid => exact onDisconnect_stateInv h
  | timerFire rid g1 g2 =>
    by_cases hmem : rid ∈ s.pending
    · simp only [execStep, step, if_pos hmem]
      exact startNextRound_stateInv h
    · simpa [execStep, step, hmem] using h

theorem execState_stateInv {songs : List Song} :
    ∀ (t : List Event) (s : ServerState), stateInv s →
      stateInv (execState songs s t)
  | [], _, h => h
  | e :: t, s, h =>
      execState_stateInv t (execStep songs s e).1 (execStep_stateInv e h)

theorem reachable_stateInv {songs : List Song} {s : ServerState}
    (h : Reachable songs s) : stateInv s := by
  obtain ⟨t, ht⟩ := h
  exact ht ▸ execState_stateInv t initState stateInv_init

/-! ## Winner write-once (claim C2) -/

/-- Does the output contain a `question` broadcast to room `r` (the start of
a new round of `r`)? -/
def hasQuestionTo (r : String) (out : List Emit) : Bool :=
  out.any (fun e => match e.payload, e.target with
    | Payload.question _ _ _ _, Target.toRoom r' => r' = r
    | _, _ => false)

theorem startNextRound_cq_preserved {songs : List Song} {g1 g2 : Nat → Nat}
    {s : ServerState} {rid r : String} {room : Room} {q : Question}
    (hroom : findA s.rooms r = some room) (hq : room.currentQuestion = some q)
    (hnoq : hasQuestionTo r (startNextRound songs g1 g2 s rid).2 = false) :
    ∀ room', findA (startNextRound songs g1 g2 s rid).1.rooms r = some room' →
      room'.currentQuestion = some q := by
  intro room' hr'
  cases hf : findA s.rooms rid with
  | none =>
    simp only [startNextRound, hf] at hr'
    rw [hroom] at hr'
    injection hr' with hr'
    exact hr' ▸ hq
  | some room₀ =>
    by_cases hlt : room₀.gameIndex < room₀.gameQuestions.length
    · simp only [startNextRound, hf, dif_pos hlt] at hr' hnoq
      by_cases hrr : rid = r
      · subst hrr
        simp [hasQuestionTo] at hnoq
      · rw [findA_setA_ne _ _ (Ne.symm hrr), hroom] at hr'
        injection hr' with hr'
        exact hr' ▸ hq
    · simp only [startNextRound, hf, dif_neg hlt] at hr'
      rw [hroom] at hr'
      injection hr' with hr'
      exact hr' ▸ hq

theorem onJoinRoom_cq_preserved {s : ServerState} {sid rid name r : String}
    {room : Room} {q : Question}
    (hroom : findA s.rooms r = some room) (hq : room.currentQuestion = some q) :
    ∀ room', findA (onJoinRoom s sid rid name).1.rooms r = some room' →
      room'.currentQuestion = some q := by
  intro room' hr'
  simp only [onJoinRoom] at hr'
  by_cases hrr : r = rid
  · subst hrr
    rw [findA_setA_self] at hr'
    injection hr' with hr'
    subst hr'
    rw [joinedRoom_currentQuestion]
    have hge : getOrCreateRoom s.rooms r = room := by simp [getOrCreateRoom, hroom]
    rw [hge]
    exact hq
  · rw [findA_setA_ne _ _ hrr, hroom] at hr'
    injection hr' with hr'
    exact hr' ▸ hq

theorem onDisconnect_cq_preserved {s : ServerState} {sid r : String}
    {room : Room} {q : Question}
    (hroom : findA s.rooms r = some room) (hq : room.currentQuestion = some q) :
    ∀ room', findA (onDisconnect s sid).1.rooms r = some room' →
      room'.currentQuestion = some q := by
  intro room' hr'
  cases hs : findA s.socketRoom sid with
  | none =>
    simp only [onDisconnect, hs] at hr'
    rw [hroom] at hr'
    injection hr' with hr'
    exact hr' ▸ hq
  | some rid =>
    cases hf : findA s.rooms rid with
    | none =>
      simp only [onDisconnect, hs, hf] at hr'
      rw [hroom] at hr'
      injection hr' with hr'
      exact hr' ▸ hq
    | some room₀ =>
      by_cases hemp : (eraseA room₀.players sid).isEmpty = true
      · simp [onDisconnect, hs, hf, hemp] at hr'
        by_cases hrr : r = rid
        · subst hrr
          rw [findA_eraseA_self] at hr'
          cases hr'
        · rw [findA_eraseA_ne _ hrr, hroom] at hr'
          injection hr' with hr'
          exact hr' ▸ hq
      · simp only [onDisconnect, hs, hf, if_neg hemp] at hr'
        by_cases hrr : r = rid
        · subst hrr
          rw [findA_setA_self] at hr'
          injection hr' with hr'
          subst hr'
          rw [hroom] at hf
          injection hf with hf
          subst hf
          exact hq
        · rw [findA_setA_ne _ _ hrr, hroom] at hr'
          injection hr' with hr'
          exact hr' ▸ hq

theorem onAnswer_winner_stable {s : ServerState} {sid : String} {i : Nat}
    {r : String} {room : Room} {q : Question}
    (hroom : findA s.rooms r = some room) (hq : room.currentQuestion = some q)
    (hw : q.winnerSocketId.isSome = true) :
    ∀ room', findA (onAnswer s sid i).1.rooms r = some room' →
      room'.currentQuestion = some q := by
  intro room' hr'
  have hsame : ∀ (h : (onAnswer s sid i).1.rooms = s.rooms),
      room'.currentQuestion = some q := by
    intro h
    rw [h, hroom] at hr'
    injection hr' with hr'
    exact hr' ▸ hq
  cases hs : findA s.socketRoom sid with
  | none => exact hsame (by simp [onAnswer, hs])
  | some rid =>
    cases hf : findA s.rooms rid with
    | none => exact hsame (by simp [onAnswer, hs, hf])
    | some room₀ =>
      cases hq₀ : room₀.currentQuestion with
      | none => exact hsame (by simp [onAnswer, hs, hf, hq₀])
      | some q₀ =>
        by_cases hact : room₀.roundActive = true
        · cases hp : findA room₀.players sid with
          | none => exact hsame (by simp [onAnswer, hs, hf, hq₀, hact, hp])
          | some player =>
            by_cases hwin : q₀.winnerSocketId.isSome
            · exact hsame (by simp [onAnswer, hs, hf, hq₀, hact, hp, hwin])
            · by_cases hcor : (decide (i = q₀.correctIndex) : Bool) = true
              · by_cases hrr : r = rid
                · subst hrr
                  rw [hroom] at hf
                  injection hf with hf
                  subst hf
                  rw [hq] at hq₀
                  injection hq₀ with hq₀
                  subst hq₀
                  rw [hw] at hwin
                  cases hwin rfl
                · simp only [onAnswer, hs, hf, hq₀, hact, if_pos rfl, hp, hwin,
                    Bool.false_eq_true, if_false, hcor, if_true] at hr'
                  rw [findA_setA_ne _ _ hrr, hroom] at hr'
                  injection hr' with hr'
                  exact hr' ▸ hq
              · exact hsame (by simp [onAnswer, hs, hf, hq₀, hact, hp, hwin, hcor])
        · exact hsame (by simp [onAnswer, hs, hf, hq₀, hact])

theorem onStartGame_cq_preserved {songs : List Song} {s : ServerState}
    {sid : String} {gq g1 g2 : Nat → Nat} {r : String} {room : Room} {q : Question}
    (hroom : findA s.rooms r = some room) (hq : room.currentQuestion = some q)
    (hnoq : hasQuestionTo r (onStartGame songs s sid gq g1 g2).2 = false) :
    ∀ room', findA (onStartGame songs s sid gq g1 g2).1.rooms r = some room' →
      room'.currentQuestion = some q := by
  intro room' hr'
  cases hs : findA s.socketRoom sid with
  | none =>
    simp only [onStartGame, hs] at hr'
    rw [hroom] at hr'
    injection hr' with hr'
    exact hr' ▸ hq
  | some rid =>
    cases hf : findA s.rooms rid with
    | none =>
      simp only [onStartGame, hs, hf] at hr'
      rw [hroom] at hr'
      injection hr' with hr'
      exact hr' ▸ hq
    | some room₀ =>
      by_cases hh : room₀.hostId = some sid
      · simp only [onStartGame, hs, hf, if_pos hh] at hr' hnoq
        have hnoq' : hasQuestionTo r (startNextRound songs g1 g2
            { s with rooms := setA s.rooms rid (resetRoom room₀ ((shuffleL gq songs).take 10)) }
            rid).2 = false := by
          simpa [hasQuestionTo] using hnoq
        by_cases hrr : r = rid
        · subst hrr
          rw [hroom] at hf
          injection hf with hf
          subst hf
          have hcq' : (resetRoom room ((shuffleL gq songs).take 10)).currentQuestion
              = some q := hq
          exact startNextRound_cq_preserved
            (s := { s with rooms := setA s.rooms r (resetRoom room ((shuffleL gq songs).take 10)) })
            (findA_setA_self _ _ _) hcq' hnoq' room' hr'
        · refine startNextRound_cq_preserved
            (s := { s with rooms := setA s.rooms rid (resetRoom room₀ ((shuffleL gq songs).take 10)) })
            ?_ hq hnoq' room' hr'
          show findA (setA s.rooms rid _) r = some room
          rw [findA_setA_ne _ _ hrr]
          exact hroom
      · simp only [onStartGame, hs, hf, if_neg hh] at hr'
        rw [hroom] at hr'
        injection hr' with hr'
        exact hr' ▸ hq

theorem step_winner_stable {songs : List Song} {s : ServerState} {e : Event}
    {s' : ServerState} {out : List Emit} {r : String} {room : Room} {q : Question}
    (hstep : step songs s e = some (s', out))
    (hroom : findA s.rooms r = some room) (hq : room.currentQuestion = some q)
    (hw : q.winnerSocketId.isSome = true)
    (hnoq : hasQuestionTo r out = false) :
    ∀ room', findA s'.rooms r = some room' → room'.currentQuestion = some q := by
  cases e with
  | joinRoom sid rid name =>
    simp only [step, Option.some_inj] at hstep
    have h1 : s' = (onJoinRoom s sid rid name).1 := by rw [hstep]
    rw [h1]
    exact onJoinRoom_cq_preserved hroom hq
  | startGame sid gq g1 g2 =>
    simp only [step, Option.some_inj] at hstep
    have h1 : s' = (onStartGame songs s sid gq g1 g2).1 := by rw [hstep]
    have h2 : out = (onStartGame songs s sid gq g1 g2).2 := by rw [hstep]
    rw [h1]
    exact onStartGame_cq_preserved hroom hq (h2 ▸ hnoq)
  | answer sid i =>
    simp only [step, Option.some_inj] at hstep
    have h1 : s' = (onAnswer s sid i).1 := by rw [hstep]
    rw [h1]
    exact onAnswer_winner_stable hroom hq hw
  | disconnect sid =>
    simp only [step, Option.some_inj] at hstep
    have h1 : s' = (onDisconnect s sid).1 := by rw [hstep]
    rw [h1]
    exact onDisconnect_cq_preserved hroom hq
  | timerFire rid g1 g2 =>
    by_cases hmem : rid ∈ s.pending
    · simp only [step, if_pos hmem, Option.some_inj] at hstep
      have h1 : s' = (startNextRound songs g1 g2
          { s with pending := s.pending.erase rid } rid).1 := by rw [hstep]
      have h2 : out = (startNextRound songs g1 g2
          { s with pending := s.pending.erase rid } rid).2 := by rw [hstep]
      rw [h1]
      exact startNextRound_cq_preserved
        (s := { s with pending := s.pending.erase rid }) hroom hq (h2 ▸ hnoq)
    · simp [step, hmem] at hstep

theorem startNextRound_question_fresh {songs : List Song} {g1 g2 : Nat → Nat}
    {s : ServerState} {rid r : String}
    (hq : hasQuestionTo r (startNextRound songs g1 g2 s rid).2 = true) :
    ∃ room' q', findA (startNextRound songs g1 g2 s rid).1.rooms r = some room' ∧
      room'.currentQuestion = some q' ∧ q'.winnerSocketId = none ∧
      room'.roundActive = true := by
  cases hf : findA s.rooms rid with
  | none => simp [startNextRound, hf, hasQuestionTo] at hq
  | some room₀ =>
    by_cases hlt : room₀.gameIndex < room₀.gameQuestions.length
    · simp only [startNextRound, hf, dif_pos hlt] at hq ⊢
      have hrr : rid = r := by
        by_contra hne
        simp [hasQuestionTo, hne] at hq
      subst hrr
      exact ⟨_, _, findA_setA_self _ _ _, rfl, rfl, rfl⟩
    · simp [startNextRound, hf, dif_neg hlt, hasQuestionTo] at hq

theorem step_question_fresh {songs : List Song} {s : ServerState} {e : Event}
    {s' : ServerState} {out : List Emit} {r : String}
    (hstep : step songs s e = some (s', out))
    (hq : hasQuestionTo r out = true) :
    ∃ room' q', findA s'.rooms r = some room' ∧
      room'.currentQuestion = some q' ∧ q'.winnerSocketId = none ∧
      room'.roundActive = true := by
  cases e with
  | joinRoom sid rid name =>
    simp only [step, Option.some_inj] at hstep
    have h2 : out = (onJoinRoom s sid rid name).2 := by rw [hstep]
    rw [h2] at hq
    simp [onJoinRoom, hasQuestionTo] at hq
  | startGame sid gq g1 g2 =>
    simp only [step, Option.some_inj] at hstep
    have h1 : s' = (onStartGame songs s sid gq g1 g2).1 := by rw [hstep]
    have h2 : out = (onStartGame songs s sid gq g1 g2).2 := by rw [hstep]
    subst h1
    rw [h2] at hq
    clear hstep h2
    cases hs : findA s.socketRoom sid with
    | none => simp [onStartGame, hs, hasQuestionTo] at hq
    | some rid =>
      cases hf : findA s.rooms rid with
      | none => simp [onStartGame, hs, hf, hasQuestionTo] at hq
      | some room₀ =>
        by_cases hh : room₀.hostId = some sid
        · simp only [onStartGame, hs, hf, if_pos hh] at hq ⊢
          have hq' : hasQuestionTo r (startNextRound songs g1 g2
              { s with rooms := setA s.rooms rid (resetRoom room₀ ((shuffleL gq songs).take 10)) }
              rid).2 = true := by
            simpa [hasQuestionTo] using hq
          exact startNextRound_question_fresh hq'
        · simp [onStartGame, hs, hf, hh, hasQuestionTo] at hq
  | answer sid i =>
    simp only [step, Option.some_inj] at hstep
    have h2 : out = (onAnswer s sid i).2 := by rw [hstep]
    rw [h2] at hq
    cases hs : findA s.socketRoom sid with
    | none => simp [onAnswer, hs, hasQuestionTo] at hq
    | some rid =>
      cases hf : findA s.rooms rid with
      | none => simp [onAnswer, hs, hf, hasQuestionTo] at hq
      | some room₀ =>
        cases hq₀ : room₀.currentQuestion with
        | none => simp [onAnswer, hs, hf, hq₀, hasQuestionTo] at hq
        | some q₀ =>
          by_cases hact : room₀.roundActive = true
          · cases hp : findA room₀.players sid with
            | none => simp [onAnswer, hs, hf, hq₀, hact, hp, hasQuestionTo] at hq
            | some player =>
              by_cases hwin : q₀.winnerSocketId.isSome
              · simp [onAnswer, hs, hf, hq₀, hact, hp, hwin, hasQuestionTo] at hq
              · by_cases hcor : (decide (i = q₀.correctIndex) : Bool) = true
                · simp [onAnswer, hs, hf, hq₀, hact, hp, hwin, hcor,
                    hasQuestionTo] at hq
                · simp [onAnswer, hs, hf, hq₀, hact, hp, hwin, hcor,
                    hasQuestionTo] at hq
          · simp [onAnswer, hs, hf, hq₀, hact, hasQuestionTo] at hq
  | disconnect sid =>
    simp only [step, Option.some_inj] at hstep
    have h2 : out = (onDisconnect s sid).2 := by rw [hstep]
    rw [h2] at hq
    cases hs : findA s.socketRoom sid with
    | none => simp [onDisconnect, hs, hasQuestionTo] at hq
    | some rid =>
      cases hf : findA s.rooms rid with
      | none => simp [onDisconnect, hs, hf, hasQuestionTo] at hq
      | some room₀ =>
        by_cases hemp : (eraseA room₀.players sid).isEmpty = true
        · simp [onDisconnect, hs, hf, hemp, hasQuestionTo] at hq
        · simp [onDisconnect, hs, hf, hemp, hasQuestionTo] at hq
  | timerFire rid g1 g2 =>
    by_cases hmem : rid ∈ s.pending
    · simp only [step, if_pos hmem, Option.some_inj] at hstep
      have h1 : s' = (startNextRound songs g1 g2
          { s with pending := s.pending.erase rid } rid).1 := by rw [hstep]
      have h2 : out = (startNextRound songs g1 g2
          { s with pending := s.pending.erase rid } rid).2 := by rw [hstep]
      subst h1
      rw [h2] at hq
      exact startNextRound_question_fresh hq
    · simp [step, hmem] at hstep

/-! ## Claims C1 and C2, with their concrete states -/

/-- The trace: `h` and `p` join room `R`, then the host starts a game (on the
singleton bank). -/
def t3 : List Event :=
  [Event.joinRoom "h" "R" "H", Event.joinRoom "p" "R" "P",
   Event.startGame "h" rand0 rand0 rand0]

/-- Round 1's question, not yet won. -/
def q3 : Question :=
  { title := "A", audioUrl := "a", correctIndex := 0, winnerSocketId := none }

/-- Room `R` with round 1 active. -/
def room3 : Room :=
  { id := "R", hostId := some "h",
    players := [("h", { name := "H", score := 0 }), ("p", { name := "P", score := 0 })],
    gameQuestions := songs1, gameIndex := 1,
    currentQuestion := some q3, roundActive := true }

/-- The state after `t3`. -/
def s3 : ServerState :=
  { rooms := [("R", room3)], socketRoom := [("h", "R"), ("p", "R")], pending := [] }

/-- Trace `t3` followed by a correct answer from `h`, who wins the round. -/
def t4 : List Event := t3 ++ [Event.answer "h" 0]

/-- Round 1's question after `h` won it. -/
def q4 : Question :=
  { title := "A", audioUrl := "a", correctIndex := 0, winnerSocketId := some "h" }

/-- Room `R` after `h` won round 1. -/
def room4 : Room :=
  { id := "R", hostId := some "h",
    players := [("h", { name := "H", score := 1 }), ("p", { name := "P", score := 0 })],
    gameQuestions := songs1, gameIndex := 1,
    currentQuestion := some q4, roundActive := false }

/-- The state after `t4`: winner recorded, round inactive, advance pending. -/
def s4 : ServerState :=
  { rooms := [("R", room4)], socketRoom := [("h", "R"), ("p", "R")], pending := ["R"] }

/-- Claim C2: (1) in every reachable state, `roundActive` is set only when the
current question exists with no recorded winner yet.  (2) Once a winner is
recorded for the current round, no step that does not broadcast a new
`question` for the room changes the round record — the winner transitions at
most once, from none to a fixed identity, per round instance.  (3) Every
`question` broadcast installs a fresh round whose winner is none, so each
round instance starts unwon; the winner field holding at most one identity
at a time, at most one connection is ever recorded as winner per instance. -/
theorem claim_C2_winnerInvariant (songs : List Song) :
    (∀ s, Reachable songs s → ∀ r room, findA s.rooms r = some room →
      room.roundActive = true →
        ∃ q, room.currentQuestion = some q ∧ q.winnerSocketId = none) ∧
    (∀ s e s' out r room q, step songs s e = some (s', out) →
      findA s.rooms r = some room → room.currentQuestion = some q →
      q.winnerSocketId.isSome = true → hasQuestionTo r out = false →
      ∀ room', findA s'.rooms r = some room' → room'.currentQuestion = some q) ∧
    (∀ s e s' out r, step songs s e = some (s', out) →
      hasQuestionTo r out = true →
      ∃ room' q', findA s'.rooms r = some room' ∧
        room'.currentQuestion = some q' ∧ q'.winnerSocketId = none ∧
        room'.roundActive = true) :=
  ⟨fun s hs r room hr ha => reachable_stateInv hs r room hr ha,
   fun _ _ _ _ _ _ _ hstep hr hq hw hnoq => step_winner_stable hstep hr hq hw hnoq,
   fun _ _ _ _ _ hstep hq => step_question_fresh hstep hq⟩

/-- Witness for C2: the invariant at the reachable state `s3`, winner
stability across a late answer at `s4`, and the fresh round installed by a
`startGame` from `sJoin2`. -/
theorem claim_C2_winnerInvariant_witness :
    (∃ q, room3.currentQuestion = some q ∧ q.winnerSocketId = none) ∧
    room4.currentQuestion = some q4 ∧
    (∃ room' q',
      findA (execStep songs1 sJoin2 (Event.startGame "h" rand0 rand0 rand0)).1.rooms "R"
          = some room' ∧
        room'.currentQuestion = some q' ∧ q'.winnerSocketId = none ∧
        room'.roundActive = true) :=
  ⟨(claim_C2_winnerInvariant songs1).1 s3 ⟨t3, by decide⟩ "R" room3
      (by decide) (by decide),
   (claim_C2_winnerInvariant songs1).2.1 s4 (Event.answer "p" 0) s4 [] "R" room4 q4
      (by decide) (by decide) (by decide) (by decide) (by decide) room4 (by decide),
   (claim_C2_winnerInvariant songs1).2.2 sJoin2 (Event.startGame "h" rand0 rand0 rand0)
      (execStep songs1 sJoin2 (Event.startGame "h" rand0 rand0 rand0)).1
      (execStep songs1 sJoin2 (Event.startGame "h" rand0 rand0 rand0)).2 "R"
      (by decide) (by decide)⟩

/-- Claim C1, counterexample: in the reachable state `s4`, room `R` exists, its
`currentQuestion` is set and a winner (`h`) is recorded, yet the late answer
from `p` produces *no* emit at all — in particular no unicast `answerResult`
— because `roundActive` is already false and the handler drops the event at
its guard, contrary to the claim. -/
theorem claim_C1_counterexample :
    Reachable songs1 s4 ∧
    findA s4.socketRoom "p" = some "R" ∧
    findA s4.rooms "R" = some room4 ∧
    room4.currentQuestion = some q4 ∧
    q4.winnerSocketId = some "h" ∧
    step songs1 s4 (Event.answer "p" 0) = some (s4, []) ∧
    (∀ (s' : ServerState) (outE : List Emit),
      step songs1 s4 (Event.answer "p" 0) = some (s', outE) →
      ∀ b, (⟨Target.toSock "p", Payload.answerResult b⟩ : Emit) ∉ outE) := by
  refine ⟨⟨t4, by decide⟩, by decide, by decide, by decide, by decide, by decide, ?_⟩
  intro s' outE h b
  have he : step songs1 s4 (Event.answer "p" 0) = some (s4, []) := by decide
  rw [he] at h
  injection h with h
  have h2 : ([] : List Emit) = outE := congrArg Prod.snd h
  rw [← h2]
  simp

/-- Claim C1, amended: an answer submission arriving while a room exists, its
`currentQuestion` is set and a winner is already recorded is dropped
entirely: the round guard (`roundActive` is false once a winner is recorded,
by the reachable-state invariant) rejects it before the `answerResult`
unicast, so the sender receives nothing and no room state changes. -/
theorem claim_C1_lateAnswerDropped (songs : List Song) (s : ServerState)
    (hreach : Reachable songs s) (sid r : String) (i : Nat) (room : Room)
    (q : Question) (w : String)
    (hsock : findA s.socketRoom sid = some r)
    (hroom : findA s.rooms r = some room)
    (hq : room.currentQuestion = some q)
    (hw : q.winnerSocketId = some w) :
    step songs s (Event.answer sid i) = some (s, []) := by
  have hinv := reachable_stateInv hreach
  cases hb : room.roundActive with
  | false => simp [step, onAnswer, hsock, hroom, hq, hb]
  | true =>
    obtain ⟨q', hq', hw'⟩ := hinv r room hroom hb
    rw [hq] at hq'
    injection hq' with hq'
    subst hq'
    rw [hw] at hw'
    simp at hw'

/-- Witness for the amended C1 at the reachable state `s4`. -/
theorem claim_C1_lateAnswerDropped_witness :
    (findA s4.socketRoom "p" = some "R" ∧ findA s4.rooms "R" = some room4 ∧
      room4.currentQuestion = some q4 ∧ q4.winnerSocketId = some "h") ∧
    step songs1 s4 (Event.answer "p" 0) = some (s4, []) :=
  ⟨⟨by decide, by decide, by decide, by decide⟩,
   claim_C1_lateAnswerDropped songs1 s4 ⟨t4, by decide⟩ "p" "R" 0 room4 q4 "h"
     (by decide) (by decide) (by decide) (by decide)⟩

/-! ## Per-room event stream (claims C4, C5) -/

/-- The payloads broadcast to room `r`, in order. -/
def projRoom (r : String) (es : List Emit) : List Payload :=
  es.filterMap (fun e => match e.target with
    | Target.toRoom r' => if r' = r then some e.payload else none
    | Target.toSock _ => none)

theorem projRoom_nil (r : String) : projRoom r [] = [] := rfl

theorem projRoom_cons_room (r rid : String) (p : Payload) (es : List Emit) :
    projRoom r (⟨Target.toRoom rid, p⟩ :: es)
      = if rid = r then p :: projRoom r es else projRoom r es := by
  by_cases h : rid = r <;> simp [projRoom, List.filterMap_cons, h]

theorem projRoom_cons_sock (r sid : String) (p : Payload) (es : List Emit) :
    projRoom r (⟨Target.toSock sid, p⟩ :: es) = projRoom r es := by
  simp [projRoom, List.filterMap_cons]

theorem projRoom_append (r : String) (xs ys : List Emit) :
    projRoom r (xs ++ ys) = projRoom r xs ++ projRoom r ys := by
  simp [projRoom, List.filterMap_append]

/-- Round-index automaton for one room's event stream: it tracks the number
of rounds started in the current game and the announced total.  `gameStart`
resets it; every `question` must carry index = (rounds started so far) + 1,
the game's announced total, and an index within that total. -/
def segRun : Nat × Nat → List Payload → Option (Nat × Nat)
  | a, [] => some a
  | _, Payload.gameStart T :: rest => segRun (0, T) rest
  | a, Payload.question _ _ i T' :: rest =>
      if i = a.1 + 1 ∧ T' = a.2 ∧ i ≤ a.2 then segRun (a.1 + 1, a.2) rest else none
  | a, _ :: rest => segRun a rest

theorem segRun_append (a : Nat × Nat) (xs ys : List Payload) :
    segRun a (xs ++ ys) = (segRun a xs).bind (fun b => segRun b ys) := by
  induction xs generalizing a with
  | nil => simp [segRun]
  | cons p rest ih =>
    cases p with
    | gameStart T => simp [segRun, ih]
    | question u o i T' =>
      by_cases h : i = a.1 + 1 ∧ T' = a.2 ∧ i ≤ a.2
      · obtain ⟨h1, h2, h3⟩ := h
        subst h1
        subst h2
        simp [segRun, h3, ih]
      · simp [segRun, h]
    | roomState x y z => simp [segRun, ih]
    | answerResult b => simp [segRun, ih]
    | roundResult x y z w v => simp [segRun, ih]
    | gameEnd x => simp [segRun, ih]

/-- Coupling between the automaton state for room `r` and the server state:
the tracked pair is exact, except possibly when the room's cursor is already
exhausted (then no `question` can be emitted before the next reset). -/
def couple (s : ServerState) (r : String) (a : Nat × Nat) : Prop :=
  ∀ room, findA s.rooms r = some room →
    a = (room.gameIndex, room.gameQuestions.length) ∨
      room.gameQuestions.length ≤ room.gameIndex

theorem startNextRound_segRun (songs : List Song) (g1 g2 : Nat → Nat)
    {s : ServerState} (rid : String) {r : String} {a : Nat × Nat} (hc : couple s r a) :
    ∃ a', segRun a (projRoom r (startNextRound songs g1 g2 s rid).2) = some a' ∧
      couple (startNextRound songs g1 g2 s rid).1 r a' := by
  cases hf : findA s.rooms rid with
  | none =>
    refine ⟨a, ?_, ?_⟩
    · simp [startNextRound, hf, projRoom_nil, segRun]
    · simpa [startNextRound, hf] using hc
  | some room₀ =>
    by_cases hlt : room₀.gameIndex < room₀.gameQuestions.length
    · by_cases hrr : rid = r
      · subst hrr
        rcases hc room₀ hf with ha | hex
        · subst ha
          refine ⟨(room₀.gameIndex + 1, room₀.gameQuestions.length), ?_, ?_⟩
          · simp [startNextRound, hf, dif_pos hlt, projRoom_cons_room, segRun,
              Nat.succ_le_of_lt hlt]
          · intro room' hr'
            simp only [startNextRound, hf, dif_pos hlt] at hr'
            rw [findA_setA_self] at hr'
            injection hr' with hr'
            subst hr'
            left
            rfl
        · omega
      · refine ⟨a, ?_, ?_⟩
        · simp [startNextRound, hf, dif_pos hlt, projRoom_cons_room, hrr, segRun]
        · intro room' hr'
          simp only [startNextRound, hf, dif_pos hlt] at hr'
          rw [findA_setA_ne _ _ (Ne.symm hrr)] at hr'
          exact hc room' hr'
    · refine ⟨a, ?_, ?_⟩
      · by_cases hrr : rid = r
        · subst hrr
          simp [startNextRound, hf, dif_neg hlt, projRoom_cons_room, segRun]
        · simp [startNextRound, hf, dif_neg hlt, projRoom_cons_room, hrr, segRun]
      · simp only [startNextRound, hf, dif_neg hlt]
        exact hc

theorem onJoinRoom_couple {s : ServerState} {sid rid name r : String}
    {a : Nat × Nat} (hc : couple s r a) :
    couple (onJoinRoom s sid rid name).1 r a := by
  intro room' hr'
  simp only [onJoinRoom] at hr'
  by_cases hrr : r = rid
  · subst hrr
    rw [findA_setA_self] at hr'
    injection hr' with hr'
    subst hr'
    rw [joinedRoom_gameIndex, joinedRoom_gameQuestions]
    cases hg : findA s.rooms r with
    | none =>
      right
      have he : getOrCreateRoom s.rooms r = freshRoom r := by
        simp [getOrCreateRoom, hg]
      rw [he]
      simp [freshRoom]
    | some room =>
      have hge : getOrCreateRoom s.rooms r = room := by
        simp [getOrCreateRoom, hg]
      rw [hge]
      exact hc room hg
  · rw [findA_setA_ne _ _ hrr] at hr'
    exact hc room' hr'

theorem onJoinRoom_segRun {s : ServerState} (sid rid name : String) {r : String}
    {a : Nat × Nat} (hc : couple s r a) :
    segRun a (projRoom r (onJoinRoom s sid rid name).2) = some a ∧
      couple (onJoinRoom s sid rid name).1 r a := by
  constructor
  · show segRun a (projRoom r [⟨Target.toRoom rid, Payload.roomState rid _ _⟩]) = some a
    by_cases hrr : rid = r <;> simp [projRoom_cons_room, hrr, segRun]
  · exact onJoinRoom_couple hc

theorem onAnswer_segRun {s : ServerState} (sid : String) (i : Nat) {r : String}
    {a : Nat × Nat} (hc : couple s r a) :
    segRun a (projRoom r (onAnswer s sid i).2) = some a ∧
      couple (onAnswer s sid i).1 r a := by
  cases hs : findA s.socketRoom sid with
  | none => exact ⟨by simp [onAnswer, hs, projRoom_nil, segRun], by
      simpa [onAnswer, hs] using hc⟩
  | some rid =>
    cases hf : findA s.rooms rid with
    | none => exact ⟨by simp [onAnswer, hs, hf, projRoom_nil, segRun], by
        simpa [onAnswer, hs, hf] using hc⟩
    | some room₀ =>
      cases hq₀ : room₀.currentQuestion with
      | none => exact ⟨by simp [onAnswer, hs, hf, hq₀, projRoom_nil, segRun], by
          simpa [onAnswer, hs, hf, hq₀] using hc⟩
      | some q₀ =>
        by_cases hact : room₀.roundActive = true
        · cases hp : findA room₀.players sid with
          | none => exact ⟨by simp [onAnswer, hs, hf, hq₀, hact, hp, projRoom_nil,
                segRun], by simpa [onAnswer, hs, hf, hq₀, hact, hp] using hc⟩
          | some player =>
            by_cases hwin : q₀.winnerSocketId.isSome
            · exact ⟨by simp [onAnswer, hs, hf, hq₀, hact, hp, hwin,
                  projRoom_cons_sock, projRoom_nil, segRun],
                by simpa [onAnswer, hs, hf, hq₀, hact, hp, hwin] using hc⟩
            · by_cases hcor : (decide (i = q₀.correctIndex) : Bool) = true
              · constructor
                · simp only [onAnswer, hs, hf, hq₀, hact, if_pos rfl, hp, hwin,
                    Bool.false_eq_true, if_false, hcor, if_true]
                  rw [projRoom_cons_sock]
                  by_cases hrr : rid = r <;>
                    simp [projRoom_cons_room, hrr, segRun]
                · intro room' hr'
                  simp only [onAnswer, hs, hf, hq₀, hact, if_pos rfl, hp, hwin,
                    Bool.false_eq_true, if_false, hcor, if_true] at hr'
                  by_cases hrr : r = rid
                  · subst hrr
                    rw [findA_setA_self] at hr'
                    injection hr' with hr'
                    subst hr'
                    rcases hc room₀ hf with ha | hex
                    · left
                      rw [ha]
                    · right
                      exact hex
                  · rw [findA_setA_ne _ _ hrr] at hr'
                    exact hc room' hr'
              · exact ⟨by simp [onAnswer, hs, hf, hq₀, hact, hp, hwin, hcor,
                    projRoom_cons_sock, projRoom_nil, segRun],
                  by simpa [onAnswer, hs, hf, hq₀, hact, hp, hwin, hcor] using hc⟩
        · exact ⟨by simp [onAnswer, hs, hf, hq₀, hact, projRoom_nil, segRun], by
            simpa [onAnswer, hs, hf, hq₀, hact] using hc⟩

theorem onDisconnect_segRun {s : ServerState} (sid : String) {r : String}
    {a : Nat × Nat} (hc : couple s r a) :
    segRun a (projRoom r (onDisconnect s sid).2) = some a ∧
      couple (onDisconnect s sid).1 r a := by
  cases hs : findA s.socketRoom sid with
  | none => exact ⟨by simp [onDisconnect, hs, projRoom_nil, segRun], by
      simpa [onDisconnect, hs] using hc⟩
  | some rid =>
    cases hf : findA s.rooms rid with
    | none => exact ⟨by simp [onDisconnect, hs, hf, projRoom_nil, segRun], by
        simpa [onDisconnect, hs, hf] using hc⟩
    | some room₀ =>
      by_cases hemp : (eraseA room₀.players sid).isEmpty = true
      · constructor
        · simp [onDisconnect, hs, hf, hemp, projRoom_nil, segRun]
        · intro room' hr'
          simp [onDisconnect, hs, hf, hemp] at hr'
          by_cases hrr : r = rid
          · subst hrr
            rw [findA_eraseA_self] at hr'
            cases hr'
          · rw [findA_eraseA_ne _ hrr] at hr'
            exact hc room' hr'
      · constructor
        · simp only [onDisconnect, hs, hf, if_neg hemp]
          by_cases hrr : rid = r <;> simp [projRoom_cons_room, hrr, segRun]
        · intro room' hr'
          simp only [onDisconnect, hs, hf, if_neg hemp] at hr'
          by_cases hrr : r = rid
          · subst hrr
            rw [findA_setA_self] at hr'
            injection hr' with hr'
            subst hr'
            rcases hc room₀ hf with ha | hex
            · left
              rw [ha]
            · right
              exact hex
          · rw [findA_setA_ne _ _ hrr] at hr'
            exact hc room' hr'

theorem onStartGame_segRun {songs : List Song} {s : ServerState} {sid : String}
    {gq g1 g2 : Nat → Nat} {r : String} {a : Nat × Nat} (hc : couple s r a) :
    ∃ a', segRun a (projRoom r (onStartGame songs s sid gq g1 g2).2) = some a' ∧
      couple (onStartGame songs s sid gq g1 g2).1 r a' := by
  cases hs : findA s.socketRoom sid with
  | none => exact ⟨a, by simp [onStartGame, hs, projRoom_nil, segRun], by
      simpa [onStartGame, hs] using hc⟩
  | some rid =>
    cases hf : findA s.rooms rid with
    | none => exact ⟨a, by simp [onStartGame, hs, hf, projRoom_nil, segRun], by
        simpa [onStartGame, hs, hf] using hc⟩
    | some room₀ =>
      by_cases hh : room₀.hostId = some sid
      · by_cases hrr : rid = r
        · subst hrr
          have hc1 : couple { s with rooms := setA s.rooms rid (resetRoom room₀ ((shuffleL gq songs).take 10)) } rid ((0, ((shuffleL gq songs).take 10).length)) := by
            intro room' hr'
            rw [findA_setA_self] at hr'
            injection hr' with hr'
            subst hr'
            left
            simp [resetRoom]
          obtain ⟨a', hseg, hcpl⟩ := startNextRound_segRun songs g1 g2 rid hc1
          refine ⟨a', ?_, ?_⟩
          · simp only [onStartGame, hs, hf, if_pos hh]
            rw [projRoom_cons_room, if_pos rfl]
            simp only [segRun]
            exact hseg
          · simp only [onStartGame, hs, hf, if_pos hh]
            exact hcpl
        · have hc1 : couple { s with rooms := setA s.rooms rid (resetRoom room₀ ((shuffleL gq songs).take 10)) } r a := by
            intro room' hr'
            rw [findA_setA_ne _ _ (Ne.symm hrr)] at hr'
            exact hc room' hr'
          obtain ⟨a', hseg, hcpl⟩ := startNextRound_segRun songs g1 g2 rid hc1
          refine ⟨a', ?_, ?_⟩
          · simp only [onStartGame, hs, hf, if_pos hh]
            rw [projRoom_cons_room, if_neg hrr]
            exact hseg
          · simp only [onStartGame, hs, hf, if_pos hh]
            exact hcpl
      · exact ⟨a, by simp [onStartGame, hs, hf, hh, projRoom_nil, segRun], by
          simpa [onStartGame, hs, hf, hh] using hc⟩

theorem execStep_segRun (songs : List Song) (s : ServerState) (e : Event)
    (r : String) (a : Nat × Nat) (hc : couple s r a) :
    ∃ a', segRun a (projRoom r (execStep songs s e).2) = some a' ∧
      couple (execStep songs s e).1 r a' := by
  cases e with
  | joinRoom sid rid name =>
    exact ⟨a, (onJoinRoom_segRun sid rid name hc).1,
      (onJoinRoom_segRun sid rid name hc).2⟩
  | startGame sid gq g1 g2 => exact onStartGame_segRun hc
  | answer sid i =>
    exact ⟨a, (onAnswer_segRun sid i hc).1,
      (onAnswer_segRun sid i hc).2⟩
  | disconnect sid =>
    exact ⟨a, (onDisconnect_segRun sid hc).1,
      (onDisconnect_segRun sid hc).2⟩
  | timerFire rid g1 g2 =>
    by_cases hmem : rid ∈ s.pending
    · simp only [execStep, step, if_pos hmem]
      exact startNextRound_segRun songs g1 g2 rid (fun room hroom => hc room hroom)
    · exact ⟨a, by simp [execStep, step, hmem, projRoom_nil, segRun], by
        simpa [execStep, step, hmem] using hc⟩

theorem execOut_segRun (songs : List Song) :
    ∀ (t : List Event) (s : ServerState) (r : String) (a : Nat × Nat),
      couple s r a →
      ∃ a', segRun a (projRoom r (execOut songs s t)) = some a' ∧
        couple (execState songs s t) r a'
  | [], s, r, a, hc => ⟨a, by simp [execOut, projRoom_nil, segRun], hc⟩
  | e :: t, s, r, a, hc => by
      obtain ⟨b, hb, hcb⟩ := execStep_segRun songs s e r a hc
      obtain ⟨a', ha', hca'⟩ := execOut_segRun songs t (execStep songs s e).1 r b hcb
      refine ⟨a', ?_, hca'⟩
      rw [show execOut songs s (e :: t)
          = (execStep songs s e).2 ++ execOut songs (execStep songs s e).1 t from rfl]
      rw [projRoom_append, segRun_append, hb]
      exact ha'

theorem startNextRound_question_mem {songs : List Song} {g1 g2 : Nat → Nat}
    {s : ServerState} {rid r u : String} {o : List String} {i T : Nat}
    (hmem : (⟨Target.toRoom r, Payload.question u o i T⟩ : Emit)
      ∈ (startNextRound songs g1 g2 s rid).2) :
    ∃ room', findA (startNextRound songs g1 g2 s rid).1.rooms r = some room' ∧
      i = room'.gameIndex ∧ T = room'.gameQuestions.length := by
  cases hf : findA s.rooms rid with
  | none => simp [startNextRound, hf] at hmem
  | some room₀ =>
    by_cases hlt : room₀.gameIndex < room₀.gameQuestions.length
    · simp only [startNextRound, hf, dif_pos hlt, List.mem_singleton] at hmem ⊢
      have h1 := congrArg Emit.target hmem
      have h2 := congrArg Emit.payload hmem
      simp only [] at h1 h2
      injection h1 with h1
      subst h1
      injection h2 with _ _ h2i h2T
      subst h2i
      subst h2T
      exact ⟨_, findA_setA_self _ _ _, rfl, rfl⟩
    · simp [startNextRound, hf, dif_neg hlt] at hmem

theorem step_question_characterized {songs : List Song} {s : ServerState}
    {e : Event} {s' : ServerState} {out : List Emit} {r u : String}
    {o : List String} {i T : Nat}
    (hstep : step songs s e = some (s', out))
    (hmem : (⟨Target.toRoom r, Payload.question u o i T⟩ : Emit) ∈ out) :
    ∃ room', findA s'.rooms r = some room' ∧
      i = room'.gameIndex ∧ T = room'.gameQuestions.length := by
  cases e with
  | joinRoom sid rid name =>
    simp only [step, Option.some_inj] at hstep
    have h2 : out = (onJoinRoom s sid rid name).2 := by rw [hstep]
    rw [h2] at hmem
    simp [onJoinRoom] at hmem
  | startGame sid gq g1 g2 =>
    simp only [step, Option.some_inj] at hstep
    have h1 : s' = (onStartGame songs s sid gq g1 g2).1 := by rw [hstep]
    have h2 : out = (onStartGame songs s sid gq g1 g2).2 := by rw [hstep]
    subst h1
    rw [h2] at hmem
    clear hstep h2
    cases hs : findA s.socketRoom sid with
    | none => simp [onStartGame, hs] at hmem
    | some rid =>
      cases hf : findA s.rooms rid with
      | none => simp [onStartGame, hs, hf] at hmem
      | some room₀ =>
        by_cases hh : room₀.hostId = some sid
        · simp only [onStartGame, hs, hf, if_pos hh, List.mem_cons] at hmem ⊢
          rcases hmem with hmem | hmem
          · have := congrArg Emit.payload hmem
            simp at this
          · exact startNextRound_question_mem hmem
        · simp [onStartGame, hs, hf, hh] at hmem
  | answer sid i₀ =>
    simp only [step, Option.some_inj] at hstep
    have h2 : out = (onAnswer s sid i₀).2 := by rw [hstep]
    rw [h2] at hmem
    cases hs : findA s.socketRoom sid with
    | none => simp [onAnswer, hs] at hmem
    | some rid =>
      cases hf : findA s.rooms rid with
      | none => simp [onAnswer, hs, hf] at hmem
      | some room₀ =>
        cases hq₀ : room₀.currentQuestion with
        | none => simp [onAnswer, hs, hf, hq₀] at hmem
        | some q₀ =>
          by_cases hact : room₀.roundActive = true
          · cases hp : findA room₀.players sid with
            | none => simp [onAnswer, hs, hf, hq₀, hact, hp] at hmem
            | some player =>
              by_cases hwin : q₀.winnerSocketId.isSome
              · simp [onAnswer, hs, hf, hq₀, hact, hp, hwin] at hmem
              · by_cases hcor : (decide (i₀ = q₀.correctIndex) : Bool) = true
                · simp [onAnswer, hs, hf, hq₀, hact, hp, hwin, hcor] at hmem
                · simp [onAnswer, hs, hf, hq₀, hact, hp, hwin, hcor] at hmem
          · simp [onAnswer, hs, hf, hq₀, hact] at hmem
  | disconnect sid =>
    simp only [step, Option.some_inj] at hstep
    have h2 : out = (onDisconnect s sid).2 := by rw [hstep]
    rw [h2] at hmem
    cases hs : findA s.socketRoom sid with
    | none => simp [onDisconnect, hs] at hmem
    | some rid =>
      cases hf : findA s.rooms rid with
      | none => simp [onDisconnect, hs, hf] at hmem
      | some room₀ =>
        by_cases hemp : (eraseA room₀.players sid).isEmpty = true
        · simp [onDisconnect, hs, hf, hemp] at hmem
        · simp [onDisconnect, hs, hf, hemp] at hmem
  | timerFire rid g1 g2 =>
    by_cases hmm : rid ∈ s.pending
    · simp only [step, if_pos hmm, Option.some_inj] at hstep
      have h1 : s' = (startNextRound songs g1 g2
          { s with pending := s.pending.erase rid } rid).1 := by rw [hstep]
      have h2 : out = (startNextRound songs g1 g2
          { s with pending := s.pending.erase rid } rid).2 := by rw [hstep]
      subst h1
      rw [h2] at hmem
      exact startNextRound_question_mem hmem
    · simp [step, hmm] at hstep

/-- Claim C4: (1) along every trace, the per-room event stream is accepted by
the round-index automaton: within each game (the segment following a
`gameStart`), every `question` broadcast carries index = (number of rounds
started so far in that game) + 1 — hence indices 1, 2, 3, … strictly
increasing — with the game's announced total, and never beyond that total.
(2) Whenever a step broadcasts `question {…, index, total}` to a room, the
room's post-state has `gameIndex = index` (the post-increment value) and
`gameQuestions.length = total`. -/
theorem claim_C4_questionIndices (songs : List Song) :
    (∀ (t : List Event) (r : String),
      ∃ a', segRun (0, 0) (projRoom r (execOut songs initState t)) = some a') ∧
    (∀ s e s' out r u o i T, step songs s e = some (s', out) →
      (⟨Target.toRoom r, Payload.question u o i T⟩ : Emit) ∈ out →
      ∃ room', findA s'.rooms r = some room' ∧
        i = room'.gameIndex ∧ T = room'.gameQuestions.length) :=
  ⟨fun t r => by
    obtain ⟨a', h, _⟩ := execOut_segRun songs t initState r (0, 0)
      (by intro room h; simp [initState, findA] at h)
    exact ⟨a', h⟩,
   fun _ _ _ _ _ _ _ _ _ hstep hmem => step_question_characterized hstep hmem⟩

/-- Witness for C4: the `question` broadcast by the concrete `startGame` step
from `sJoin2` carries index 1 and total 1, the post-state cursor and game
length. -/
theorem claim_C4_questionIndices_witness :
    (∃ a', segRun (0, 0) (projRoom "R" (execOut songs1 initState t4)) = some a') ∧
    (∃ room',
      findA (execStep songs1 sJoin2 (Event.startGame "h" rand0 rand0 rand0)).1.rooms "R"
          = some room' ∧
        1 = room'.gameIndex ∧ 1 = room'.gameQuestions.length) :=
  ⟨(claim_C4_questionIndices songs1).1 t4 "R",
   (claim_C4_questionIndices songs1).2 sJoin2 (Event.startGame "h" rand0 rand0 rand0)
     (execStep songs1 sJoin2 (Event.startGame "h" rand0 rand0 rand0)).1
     (execStep songs1 sJoin2 (Event.startGame "h" rand0 rand0 rand0)).2
     "R" "a" ["A"] 1 1 (by decide) (by decide)⟩

/-! ## Game-end automaton and timer counting (claim C5) -/

/-- Game-end automaton for one room's stream: `gameStart` opens a game
segment, within which at most one `gameEnd` may appear. -/
def oneEndRun : Bool → List Payload → Option Bool
  | d, [] => some d
  | _, Payload.gameStart _ :: rest => oneEndRun false rest
  | d, Payload.gameEnd _ :: rest => if d then none else oneEndRun true rest
  | d, _ :: rest => oneEndRun d rest

theorem oneEndRun_append (d : Bool) (xs ys : List Payload) :
    oneEndRun d (xs ++ ys) = (oneEndRun d xs).bind (fun b => oneEndRun b ys) := by
  induction xs generalizing d with
  | nil => simp [oneEndRun]
  | cons p rest ih =>
    cases p with
    | gameStart T => simp [oneEndRun, ih]
    | gameEnd pl =>
      cases d with
      | true => simp [oneEndRun]
      | false => simp [oneEndRun, ih]
    | roomState x y z => simp [oneEndRun, ih]
    | answerResult b => simp [oneEndRun, ih]
    | question u o i T => simp [oneEndRun, ih]
    | roundResult x y z w v => simp [oneEndRun, ih]

/-- One when room `r` exists with an active round, else 0. -/
def activeBit (s : ServerState) (r : String) : Nat :=
  match findA s.rooms r with
  | some room => if room.roundActive then 1 else 0
  | none => 0

/-- Coupling invariant for the game-end automaton of room `r`: at most one
of {pending deferred advance, active round} at a time; an active round
implies a non-empty bank; every room's question list fits in the bank; and
once the segment's `gameEnd` was seen, no timer is pending, no round active,
and the cursor is exhausted. -/
def cInv (songs : List Song) (s : ServerState) (r : String) (d : Bool) : Prop :=
  s.pending.count r + activeBit s r ≤ 1 ∧
  (activeBit s r = 1 → songs ≠ []) ∧
  (∀ room, findA s.rooms r = some room →
    room.gameQuestions.length ≤ songs.length) ∧
  (d = true → s.pending.count r = 0 ∧ activeBit s r = 0 ∧
    ∀ room, findA s.rooms r = some room →
      room.gameQuestions.length ≤ room.gameIndex)

/-- An event is clean when it is not a `startGame` issued while a deferred
round-advance is still pending for the caller's room. -/
def cleanEvt (s : ServerState) : Event → Bool
  | Event.startGame sid _ _ _ =>
      match findA s.socketRoom sid with
      | some r => !(s.pending.contains r)
      | none => true
  | _ => true

/-- A trace is clean when every `startGame` in it executes with no deferred
round-advance pending for its room. -/
def cleanTrace (songs : List Song) (s : ServerState) : List Event → Bool
  | [] => true
  | e :: t => cleanEvt s e && cleanTrace songs (execStep songs s e).1 t

theorem startNextRound_oneEnd {songs : List Song} (g1 g2 : Nat → Nat)
    {s₀ : ServerState} {rid r : String} {d : Bool}
    (hc : cInv songs s₀ r d)
    (hpend : rid = r → s₀.pending.count r = 0)
    (hd : rid = r → d = false)
    (hbit : ∀ room, findA s₀.rooms rid = some room → rid = r →
      room.gameQuestions.length ≤ room.gameIndex → room.roundActive = false) :
    ∃ d', oneEndRun d (projRoom r (startNextRound songs g1 g2 s₀ rid).2) = some d' ∧
      cInv songs (startNextRound songs g1 g2 s₀ rid).1 r d' := by
  obtain ⟨hc1, hc2, hc3, hc4⟩ := hc
  cases hf : findA s₀.rooms rid with
  | none =>
    exact ⟨d, by simp [startNextRound, hf, projRoom_nil, oneEndRun],
      by simpa [startNextRound, hf] using ⟨hc1, hc2, hc3, hc4⟩⟩
  | some room₀ =>
    by_cases hlt : room₀.gameIndex < room₀.gameQuestions.length
    · by_cases hrr : rid = r
      · subst hrr
        have hp0 : s₀.pending.count rid = 0 := hpend rfl
        have hbank : songs ≠ [] := by
          have hlen := hc3 room₀ hf
          have : 0 < songs.length := by omega
          exact List.ne_nil_of_length_pos this
        refine ⟨d, ?_, ?_, ?_, ?_, ?_⟩
        · simp [startNextRound, hf, dif_pos hlt, projRoom_cons_room, oneEndRun]
        · simp only [startNextRound, hf, dif_pos hlt]
          rw [show activeBit { s₀ with rooms := setA s₀.rooms rid _ } rid
              = 1 from by simp [activeBit, findA_setA_self]]
          omega
        · intro _
          exact hbank
        · intro room' hr'
          simp only [startNextRound, hf, dif_pos hlt] at hr'
          rw [findA_setA_self] at hr'
          injection hr' with hr'
          subst hr'
          exact hc3 room₀ hf
        · intro hdt
          exfalso
          have hex := (hc4 hdt).2.2 room₀ hf
          omega
      · refine ⟨d, ?_, ?_, ?_, ?_, ?_⟩
        · simp [startNextRound, hf, dif_pos hlt, projRoom_cons_room, hrr, oneEndRun]
        · simp only [startNextRound, hf, dif_pos hlt]
          rw [show activeBit { s₀ with rooms := setA s₀.rooms rid _ } r
              = activeBit s₀ r from by
            simp [activeBit, findA_setA_ne _ _ (Ne.symm hrr)]]
          exact hc1
        · simp only [startNextRound, hf, dif_pos hlt]
          rw [show activeBit { s₀ with rooms := setA s₀.rooms rid _ } r
              = activeBit s₀ r from by
            simp [activeBit, findA_setA_ne _ _ (Ne.symm hrr)]]
          exact hc2
        · intro room' hr'
          simp only [startNextRound, hf, dif_pos hlt] at hr'
          rw [findA_setA_ne _ _ (Ne.symm hrr)] at hr'
          exact hc3 room' hr'
        · intro hdt
          obtain ⟨hp, hb, hex⟩ := hc4 hdt
          refine ⟨?_, ?_, ?_⟩
          · simpa [startNextRound, hf, dif_pos hlt] using hp
          · simp only [startNextRound, hf, dif_pos hlt]
            rw [show activeBit { s₀ with rooms := setA s₀.rooms rid _ } r
                = activeBit s₀ r from by
              simp [activeBit, findA_setA_ne _ _ (Ne.symm hrr)]]
            exact hb
          · intro room' hr'
            simp only [startNextRound, hf, dif_pos hlt] at hr'
            rw [findA_setA_ne _ _ (Ne.symm hrr)] at hr'
            exact hex room' hr'
    · by_cases hrr : rid = r
      · subst hrr
        have hdf : d = false := hd rfl
        subst hdf
        refine ⟨true, ?_, ?_⟩
        · simp [startNextRound, hf, dif_neg hlt, projRoom_cons_room, oneEndRun]
        · refine ⟨by simpa [startNextRound, hf, dif_neg hlt] using hc1,
            by simpa [startNextRound, hf, dif_neg hlt] using hc2,
            by simpa [startNextRound, hf, dif_neg hlt] using hc3, ?_⟩
          intro _
          have hra : room₀.roundActive = false :=
            hbit room₀ hf rfl (by omega)
          refine ⟨by simpa [startNextRound, hf, dif_neg hlt] using hpend rfl, ?_, ?_⟩
          · simp only [startNextRound, hf, dif_neg hlt]
            simp [activeBit, hf, hra]
          · intro room' hr'
            simp only [startNextRound, hf, dif_neg hlt] at hr'
            injection hr' with hr'
            subst hr'
            omega
      · exact ⟨d, by simp [startNextRound, hf, dif_neg hlt, projRoom_cons_room,
            hrr, oneEndRun],
          by simpa [startNextRound, hf, dif_neg hlt] using ⟨hc1, hc2, hc3, hc4⟩⟩

theorem cInv_congr {songs : List Song} (s s' : ServerState) {r : String} {d : Bool}
    (hp : s'.pending.count r = s.pending.count r)
    (hr : findA s'.rooms r = findA s.rooms r)
    (hc : cInv songs s r d) : cInv songs s' r d := by
  obtain ⟨h1, h2, h3, h4⟩ := hc
  have hb : activeBit s' r = activeBit s r := by rw [activeBit, activeBit, hr]
  refine ⟨by rw [hp, hb]; exact h1, by rw [hb]; exact h2,
    fun room hm => h3 room (hr ▸ hm), fun hdt => ?_⟩
  obtain ⟨x, y, z⟩ := h4 hdt
  exact ⟨by rw [hp]; exact x, by rw [hb]; exact y, fun room hm => z room (hr ▸ hm)⟩

theorem cInv_setRoom {songs : List Song} {s : ServerState} {r : String} {d : Bool}
    (roomD : Room)
    (hold : ∃ room₀, findA s.rooms r = some room₀ ∧
      roomD.roundActive = room₀.roundActive ∧
      roomD.gameQuestions = room₀.gameQuestions ∧
      roomD.gameIndex = room₀.gameIndex)
    (hc : cInv songs s r d) :
    cInv songs { s with rooms := setA s.rooms r roomD } r d := by
  obtain ⟨room₀, hf, hra, hgq, hgi⟩ := hold
  obtain ⟨h1, h2, h3, h4⟩ := hc
  have hbit : activeBit { s with rooms := setA s.rooms r roomD } r = activeBit s r := by
    simp [activeBit, findA_setA_self, hf, hra]
  refine ⟨?_, ?_, ?_, ?_⟩
  · rw [hbit]
    show List.count r s.pending + activeBit s r ≤ 1
    exact h1
  · rw [hbit]
    exact h2
  · intro room' hr'
    have hr2 : findA (setA s.rooms r roomD) r = some room' := hr'
    rw [findA_setA_self] at hr2
    injection hr2 with hr2
    subst hr2
    rw [hgq]
    exact h3 room₀ hf
  · intro hdt
    obtain ⟨x, y, z⟩ := h4 hdt
    refine ⟨?_, by rw [hbit]; exact y, ?_⟩
    · show List.count r s.pending = 0
      exact x
    · intro room' hr'
      have hr2 : findA (setA s.rooms r roomD) r = some room' := hr'
      rw [findA_setA_self] at hr2
      injection hr2 with hr2
      subst hr2
      rw [hgq, hgi]
      exact z room₀ hf

theorem activeBit_eq_zero {s : ServerState} {r : String} {room : Room}
    (hf : findA s.rooms r = some room) (hb : activeBit s r = 0) :
    room.roundActive = false := by
  rw [activeBit, hf] at hb
  cases h : room.roundActive with
  | false => rfl
  | true => simp [h] at hb

theorem onJoinRoom_room_found (s : ServerState) (sid rid name : String) :
    findA (onJoinRoom s sid rid name).1.rooms rid
      = some (joinedRoom (getOrCreateRoom s.rooms rid) sid name) :=
  findA_setA_self s.rooms rid _

theorem onJoinRoom_cInv {songs : List Song} {s : ServerState}
    {sid rid name r : String} {d : Bool} (hc : cInv songs s r d) :
    cInv songs (onJoinRoom s sid rid name).1 r d := by
  obtain ⟨h1, h2, h3, h4⟩ := hc
  by_cases hrr : r = rid
  · subst hrr
    have hfind := onJoinRoom_room_found s sid r name
    have hbit : activeBit (onJoinRoom s sid r name).1 r = activeBit s r := by
      simp only [activeBit, hfind, joinedRoom_roundActive]
      cases hg : findA s.rooms r with
      | none =>
        have he : getOrCreateRoom s.rooms r = freshRoom r := by
          simp [getOrCreateRoom, hg]
        rw [he]
        simp [freshRoom]
      | some room =>
        have hge : getOrCreateRoom s.rooms r = room := by
          simp [getOrCreateRoom, hg]
        rw [hge]
    have hpend : (onJoinRoom s sid r name).1.pending = s.pending := rfl
    have hroomfacts : ∀ room', findA (onJoinRoom s sid r name).1.rooms r = some room' →
        room'.gameQuestions.length ≤ songs.length ∧
        (d = true → room'.gameQuestions.length ≤ room'.gameIndex) := by
      intro room' hr'
      rw [hfind] at hr'
      injection hr' with hr'
      subst hr'
      rw [joinedRoom_gameQuestions, joinedRoom_gameIndex]
      cases hg : findA s.rooms r with
      | none =>
        have he : getOrCreateRoom s.rooms r = freshRoom r := by
          simp [getOrCreateRoom, hg]
        rw [he]
        exact ⟨by simp [freshRoom], fun _ => by simp [freshRoom]⟩
      | some room =>
        have hge : getOrCreateRoom s.rooms r = room := by
          simp [getOrCreateRoom, hg]
        rw [hge]
        exact ⟨h3 room hg, fun hdt => (h4 hdt).2.2 room hg⟩
    refine ⟨?_, ?_, ?_, ?_⟩
    · rw [hpend, hbit]
      exact h1
    · rw [hbit]
      exact h2
    · intro room' hr'
      exact (hroomfacts room' hr').1
    · intro hdt
      obtain ⟨x, y, z⟩ := h4 hdt
      exact ⟨by rw [hpend]; exact x, by rw [hbit]; exact y,
        fun room' hr' => (hroomfacts room' hr').2 hdt⟩
  · exact cInv_congr s (onJoinRoom s sid rid name).1 rfl
      (findA_setA_ne s.rooms _ hrr) ⟨h1, h2, h3, h4⟩

theorem onAnswer_oneEnd {songs : List Song} {s : ServerState} {sid : String}
    {i : Nat} {r : String} {d : Bool} (hc : cInv songs s r d) :
    oneEndRun d (projRoom r (onAnswer s sid i).2) = some d ∧
      cInv songs (onAnswer s sid i).1 r d := by
  obtain ⟨h1, h2, h3, h4⟩ := hc
  cases hs : findA s.socketRoom sid with
  | none => exact ⟨by simp [onAnswer, hs, projRoom_nil, oneEndRun],
      by simpa [onAnswer, hs] using ⟨h1, h2, h3, h4⟩⟩
  | some rid =>
    cases hf : findA s.rooms rid with
    | none => exact ⟨by simp [onAnswer, hs, hf, projRoom_nil, oneEndRun],
        by simpa [onAnswer, hs, hf] using ⟨h1, h2, h3, h4⟩⟩
    | some room₀ =>
      cases hq₀ : room₀.currentQuestion with
      | none => exact ⟨by simp [onAnswer, hs, hf, hq₀, projRoom_nil, oneEndRun],
          by simpa [onAnswer, hs, hf, hq₀] using ⟨h1, h2, h3, h4⟩⟩
      | some q₀ =>
        by_cases hact : room₀.roundActive = true
        · cases hp : findA room₀.players sid with
          | none => exact ⟨by simp [onAnswer, hs, hf, hq₀, hact, hp, projRoom_nil,
                oneEndRun],
              by simpa [onAnswer, hs, hf, hq₀, hact, hp] using ⟨h1, h2, h3, h4⟩⟩
          | some player =>
            by_cases hwin : q₀.winnerSocketId.isSome
            · exact ⟨by simp [onAnswer, hs, hf, hq₀, hact, hp, hwin,
                  projRoom_cons_sock, projRoom_nil, oneEndRun],
                by simpa [onAnswer, hs, hf, hq₀, hact, hp, hwin]
                  using ⟨h1, h2, h3, h4⟩⟩
            · by_cases hcor : (decide (i = q₀.correctIndex) : Bool) = true
              · constructor
                · simp only [onAnswer, hs, hf, hq₀, hact, if_pos rfl, hp, hwin,
                    Bool.false_eq_true, if_false, hcor, if_true]
                  rw [projRoom_cons_sock]
                  by_cases hrr : rid = r <;>
                    simp [projRoom_cons_room, hrr, oneEndRun]
                · by_cases hrr : r = rid
                  · subst hrr
                    have hbit1 : activeBit s r = 1 := by
                      simp [activeBit, hf, hact]
                    have hcnt0 : s.pending.count r = 0 := by omega
                    simp only [onAnswer, hs, hf, hq₀, hact, if_pos rfl, hp, hwin,
                      Bool.false_eq_true, if_false, hcor, if_true]
                    have hbit' : activeBit { s with
                        rooms := setA s.rooms r ({ room₀ with
                          currentQuestion := some { q₀ with winnerSocketId := some sid },
                          roundActive := false,
                          players := setA room₀.players sid
                            { player with score := player.score + 1 } }),
                        pending := s.pending ++ [r] } r = 0 := by
                      simp [activeBit, findA_setA_self]
                    have hcnt' : (s.pending ++ [r]).count r = 1 := by
                      simp [List.count_append, hcnt0]
                    refine ⟨?_, ?_, ?_, ?_⟩
                    · rw [hbit']
                      simp only [hcnt']
                      omega
                    · rw [hbit']
                      intro h
                      cases h
                    · intro room' hr'
                      rw [findA_setA_self] at hr'
                      injection hr' with hr'
                      subst hr'
                      exact h3 room₀ hf
                    · intro hdt
                      exfalso
                      have := (h4 hdt).2.1
                      omega
                  · simp only [onAnswer, hs, hf, hq₀, hact, if_pos rfl, hp, hwin,
                      Bool.false_eq_true, if_false, hcor, if_true]
                    refine cInv_congr s _ ?_ ?_ ⟨h1, h2, h3, h4⟩
                    · have h0 : List.count r [rid] = 0 :=
                        List.count_eq_zero.mpr (by simpa using hrr)
                      simp [List.count_append, h0]
                    · exact findA_setA_ne s.rooms _ hrr
              · exact ⟨by simp [onAnswer, hs, hf, hq₀, hact, hp, hwin, hcor,
                    projRoom_cons_sock, projRoom_nil, oneEndRun],
                  by simpa [onAnswer, hs, hf, hq₀, hact, hp, hwin, hcor]
                    using ⟨h1, h2, h3, h4⟩⟩
        · exact ⟨by simp [onAnswer, hs, hf, hq₀, hact, projRoom_nil, oneEndRun],
            by simpa [onAnswer, hs, hf, hq₀, hact] using ⟨h1, h2, h3, h4⟩⟩

theorem onDisconnect_oneEnd {songs : List Song} {s : ServerState} {sid : String}
    {r : String} {d : Bool} (hc : cInv songs s r d) :
    oneEndRun d (projRoom r (onDisconnect s sid).2) = some d ∧
      cInv songs (onDisconnect s sid).1 r d := by
  obtain ⟨h1, h2, h3, h4⟩ := hc
  cases hs : findA s.socketRoom sid with
  | none => exact ⟨by simp [onDisconnect, hs, projRoom_nil, oneEndRun],
      by simpa [onDisconnect, hs] using ⟨h1, h2, h3, h4⟩⟩
  | some rid =>
    cases hf : findA s.rooms rid with
    | none => exact ⟨by simp [onDisconnect, hs, hf, projRoom_nil, oneEndRun],
        by simpa [onDisconnect, hs, hf] using ⟨h1, h2, h3, h4⟩⟩
    | some room₀ =>
      by_cases hemp : (eraseA room₀.players sid).isEmpty = true
      · constructor
        · simp [onDisconnect, hs, hf, hemp, projRoom_nil, oneEndRun]
        · have hst : (onDisconnect s sid).1 = { s with rooms := eraseA s.rooms rid } := by
            simp [onDisconnect, hs, hf, hemp]
          rw [hst]
          by_cases hrr : r = rid
          · subst hrr
            have hbit' : activeBit { s with rooms := eraseA s.rooms r } r = 0 := by
              simp [activeBit, findA_eraseA_self]
            have hfind : findA ({ s with rooms := eraseA s.rooms r } : ServerState).rooms r
                = none := findA_eraseA_self s.rooms r
            refine ⟨?_, ?_, ?_, ?_⟩
            · rw [hbit']
              show List.count r s.pending + 0 ≤ 1
              omega
            · rw [hbit']
              intro h
              cases h
            · intro room' hr'
              simp only [findA_eraseA_self] at hr'
              cases hr'
            · intro hdt
              refine ⟨?_, hbit', ?_⟩
              · show List.count r s.pending = 0
                exact (h4 hdt).1
              · intro room' hr'
                simp only [findA_eraseA_self] at hr'
                cases hr'
          · exact cInv_congr s _ rfl (findA_eraseA_ne s.rooms hrr) ⟨h1, h2, h3, h4⟩
      · constructor
        · simp only [onDisconnect, hs, hf, if_neg hemp]
          by_cases hrr : rid = r <;> simp [projRoom_cons_room, hrr, oneEndRun]
        · simp only [onDisconnect, hs, hf, if_neg hemp]
          by_cases hrr : r = rid
          · subst hrr
            exact cInv_setRoom _ ⟨room₀, hf, rfl, rfl, rfl⟩ ⟨h1, h2, h3, h4⟩
          · exact cInv_congr s _ rfl (findA_setA_ne s.rooms _ hrr) ⟨h1, h2, h3, h4⟩

theorem onStartGame_oneEnd {songs : List Song} {s : ServerState} {sid : String}
    {gq g1 g2 : Nat → Nat} {r : String} {d : Bool}
    (hclean : ∀ rid, findA s.socketRoom sid = some rid → s.pending.count rid = 0)
    (hc : cInv songs s r d) :
    ∃ d', oneEndRun d (projRoom r (onStartGame songs s sid gq g1 g2).2) = some d' ∧
      cInv songs (onStartGame songs s sid gq g1 g2).1 r d' := by
  obtain ⟨h1, h2, h3, h4⟩ := hc
  cases hs : findA s.socketRoom sid with
  | none => exact ⟨d, by simp [onStartGame, hs, projRoom_nil, oneEndRun],
      by simpa [onStartGame, hs] using ⟨h1, h2, h3, h4⟩⟩
  | some rid =>
    cases hf : findA s.rooms rid with
    | none => exact ⟨d, by simp [onStartGame, hs, hf, projRoom_nil, oneEndRun],
        by simpa [onStartGame, hs, hf] using ⟨h1, h2, h3, h4⟩⟩
    | some room₀ =>
      by_cases hh : room₀.hostId = some sid
      · have hcnt : s.pending.count rid = 0 := hclean rid hs
        by_cases hrr : rid = r
        · subst hrr
          have hqslen : ((shuffleL gq songs).take 10).length ≤ songs.length := by
            rw [List.length_take, (shuffleL_perm gq songs).length_eq]
            omega
          have hbitkeep : activeBit { s with rooms := setA s.rooms rid (resetRoom room₀ ((shuffleL gq songs).take 10)) } rid = activeBit s rid := by
            simp [activeBit, findA_setA_self, hf, resetRoom]
          have hc1 : cInv songs { s with rooms := setA s.rooms rid (resetRoom room₀ ((shuffleL gq songs).take 10)) } rid false := by
            refine ⟨?_, ?_, ?_, ?_⟩
            · rw [hbitkeep]
              show List.count rid s.pending + activeBit s rid ≤ 1
              exact h1
            · rw [hbitkeep]
              exact h2
            · intro room' hr'
              have hr2 : findA (setA s.rooms rid (resetRoom room₀ ((shuffleL gq songs).take 10))) rid = some room' := hr'
              rw [findA_setA_self] at hr2
              injection hr2 with hr2
              subst hr2
              simpa [resetRoom] using hqslen
            · intro h
              cases h
          have hpend1 : rid = rid → List.count rid ({ s with rooms := setA s.rooms rid (resetRoom room₀ ((shuffleL gq songs).take 10)) } : ServerState).pending = 0 :=
            fun _ => hcnt
          have hbit1 : ∀ room', findA ({ s with rooms := setA s.rooms rid (resetRoom room₀ ((shuffleL gq songs).take 10)) } : ServerState).rooms rid = some room' → rid = rid →
              room'.gameQuestions.length ≤ room'.gameIndex → room'.roundActive = false := by
            intro room' hr' _ hex
            have hr2 : findA (setA s.rooms rid (resetRoom room₀ ((shuffleL gq songs).take 10))) rid = some room' := hr'
            rw [findA_setA_self] at hr2
            injection hr2 with hr2
            subst hr2
            simp only [resetRoom] at hex ⊢
            cases hra : room₀.roundActive with
            | false => rfl
            | true =>
              exfalso
              have hb1 : activeBit s rid = 1 := by simp [activeBit, hf, hra]
              have hsne := h2 hb1
              have hlen : 0 < songs.length := List.length_pos.mpr hsne
              rw [List.length_take, (shuffleL_perm gq songs).length_eq] at hex
              omega
          obtain ⟨d', hseg, hcinv⟩ := startNextRound_oneEnd g1 g2
            hc1 hpend1 (fun _ => rfl) hbit1
          refine ⟨d', ?_, ?_⟩
          · simp only [onStartGame, hs, hf, if_pos hh]
            rw [projRoom_cons_room, if_pos rfl]
            simp only [oneEndRun]
            exact hseg
          · simp only [onStartGame, hs, hf, if_pos hh]
            exact hcinv
        · have hc1 : cInv songs { s with rooms := setA s.rooms rid (resetRoom room₀ ((shuffleL gq songs).take 10)) } r d :=
            cInv_congr s _ rfl
              (findA_setA_ne s.rooms _ (fun e => hrr e.symm)) ⟨h1, h2, h3, h4⟩
          obtain ⟨d', hseg, hcinv⟩ := startNextRound_oneEnd g1 g2
            hc1 (fun e => absurd e hrr) (fun e => absurd e hrr)
            (fun _ _ e _ => absurd e hrr)
          refine ⟨d', ?_, ?_⟩
          · simp only [onStartGame, hs, hf, if_pos hh]
            rw [projRoom_cons_room, if_neg hrr]
            exact hseg
          · simp only [onStartGame, hs, hf, if_pos hh]
            exact hcinv
      · exact ⟨d, by simp [onStartGame, hs, hf, hh, projRoom_nil, oneEndRun],
          by simpa [onStartGame, hs, hf, hh] using ⟨h1, h2, h3, h4⟩⟩

theorem execStep_oneEnd {songs : List Song} {s : ServerState} {e : Event}
    {r : String} {d : Bool} (hclean : cleanEvt s e = true)
    (hc : cInv songs s r d) :
    ∃ d', oneEndRun d (projRoom r (execStep songs s e).2) = some d' ∧
      cInv songs (execStep songs s e).1 r d' := by
  cases e with
  | joinRoom sid rid name =>
    refine ⟨d, ?_, onJoinRoom_cInv hc⟩
    show oneEndRun d (projRoom r [⟨Target.toRoom rid, Payload.roomState rid
      (joinedRoom (getOrCreateRoom s.rooms rid) sid name).hostId
      (joinedRoom (getOrCreateRoom s.rooms rid) sid name).players⟩]) = some d
    by_cases hrr : rid = r <;> simp [projRoom_cons_room, hrr, oneEndRun]
  | startGame sid gq g1 g2 =>
    have hcl : ∀ rid, findA s.socketRoom sid = some rid →
        s.pending.count rid = 0 := by
      intro rid hs
      simp only [cleanEvt, hs, Bool.not_eq_eq_eq_not, Bool.not_true] at hclean
      refine List.count_eq_zero.mpr ?_
      intro hmem
      have hcont : s.pending.contains rid = true := List.elem_eq_true_of_mem hmem
      rw [hcont] at hclean
      cases hclean
    exact onStartGame_oneEnd hcl hc
  | answer sid i => exact ⟨d, (onAnswer_oneEnd hc).1, (onAnswer_oneEnd hc).2⟩
  | disconnect sid =>
    exact ⟨d, (onDisconnect_oneEnd hc).1, (onDisconnect_oneEnd hc).2⟩
  | timerFire rid g1 g2 =>
    by_cases hmem : rid ∈ s.pending
    · simp only [execStep, step, if_pos hmem]
      obtain ⟨h1, h2, h3, h4⟩ := hc
      by_cases hrr : rid = r
      · subst hrr
        have hge1 : 1 ≤ s.pending.count rid := List.count_pos_iff.mpr hmem
        have hb0 : activeBit s rid = 0 := by omega
        have hcnt1 : s.pending.count rid = 1 := by omega
        have hc2 : cInv songs { s with pending := s.pending.erase rid } rid d := by
          refine ⟨?_, h2, h3, ?_⟩
          · show (s.pending.erase rid).count rid + activeBit s rid ≤ 1
            rw [List.count_erase_self]
            omega
          · intro hdt
            exfalso
            have := (h4 hdt).1
            omega
        have hd2 : rid = rid → d = false := by
          intro _
          by_contra hdt
          have hdt' : d = true := by
            cases d with
            | false => exact absurd rfl hdt
            | true => rfl
          have := (h4 hdt').1
          omega
        have hpend2 : rid = rid →
            List.count rid ({ s with pending := s.pending.erase rid } : ServerState).pending = 0 := by
          intro _
          show List.count rid (s.pending.erase rid) = 0
          rw [List.count_erase_self]
          omega
        have hbit2 : ∀ room, findA ({ s with pending := s.pending.erase rid } : ServerState).rooms rid = some room → rid = rid →
            room.gameQuestions.length ≤ room.gameIndex → room.roundActive = false := by
          intro room hfr _ _
          exact activeBit_eq_zero (s := s) hfr hb0
        exact startNextRound_oneEnd g1 g2 hc2 hpend2 hd2 hbit2
      · have hc2 : cInv songs { s with pending := s.pending.erase rid } r d := by
          refine cInv_congr s _ ?_ rfl ⟨h1, h2, h3, h4⟩
          show (s.pending.erase rid).count r = s.pending.count r
          exact List.count_erase_of_ne (fun e => hrr e.symm) _
        exact startNextRound_oneEnd g1 g2 hc2 (fun e => absurd e hrr)
          (fun e => absurd e hrr) (fun _ _ e _ => absurd e hrr)
    · exact ⟨d, by simp [execStep, step, hmem, projRoom_nil, oneEndRun],
        by simpa [execStep, step, hmem] using hc⟩

theorem cInv_init (songs : List Song) (r : String) :
    cInv songs initState r false := by
  refine ⟨?_, ?_, ?_, ?_⟩ <;> simp [initState, activeBit, findA, cInv]

theorem execOut_oneEnd (songs : List Song) :
    ∀ (t : List Event) (s : ServerState) (r : String) (d : Bool),
      cleanTrace songs s t = true → cInv songs s r d →
      ∃ d', oneEndRun d (projRoom r (execOut songs s t)) = some d'
  | [], _, _, d, _, _ => ⟨d, by simp [execOut, projRoom_nil, oneEndRun]⟩
  | e :: t, s, r, d, hcl, hc => by
      have hcl1 : cleanEvt s e = true ∧
          cleanTrace songs (execStep songs s e).1 t = true := by
        simpa [cleanTrace, Bool.and_eq_true] using hcl
      obtain ⟨d₁, hb, hcb⟩ := execStep_oneEnd hcl1.1 hc
      obtain ⟨d', hd'⟩ := execOut_oneEnd songs t (execStep songs s e).1 r d₁ hcl1.2 hcb
      refine ⟨d', ?_⟩
      rw [show execOut songs s (e :: t)
          = (execStep songs s e).2 ++ execOut songs (execStep songs s e).1 t from rfl]
      rw [projRoom_append, oneEndRun_append, hb]
      exact hd'

/-- A clean full game on the singleton bank: join, start, win, timer fires,
`gameEnd` is broadcast once. -/
def t6 : List Event :=
  [Event.joinRoom "h" "R" "H", Event.startGame "h" rand0 rand0 rand0,
   Event.answer "h" 0, Event.timerFire "R" rand0 rand0]

/-- A dirty trace: the host restarts the game while the previous game's
deferred advance is still pending, wins again, and then both timers fire. -/
def t7 : List Event :=
  [Event.joinRoom "h" "R" "H", Event.startGame "h" rand0 rand0 rand0,
   Event.answer "h" 0, Event.startGame "h" rand0 rand0 rand0,
   Event.answer "h" 0, Event.timerFire "R" rand0 rand0,
   Event.timerFire "R" rand0 rand0]

/-- Claim C5, counterexample: in the dirty trace `t7` the room's event stream
ends, after its *last* `gameStart`, with *two* `gameEnd` broadcasts — the
stale deferred advance of the previous game fires at the exhausted cursor of
the new game — so "exactly one gameEnd event is broadcast" per game is false
(the game-end automaton rejects the stream). -/
theorem claim_C5_counterexample :
    oneEndRun false (projRoom "R" (execOut songs1 initState t7)) = none ∧
    projRoom "R" (execOut songs1 initState t7) =
      [Payload.roomState "R" (some "h") [("h", { name := "H", score := 0 })],
       Payload.gameStart 1,
       Payload.question "a" ["A"] 1 1,
       Payload.roundResult 0 "h" "H" 1 [("h", { name := "H", score := 1 })],
       Payload.gameStart 1,
       Payload.question "a" ["A"] 1 1,
       Payload.roundResult 0 "h" "H" 2 [("h", { name := "H", score := 2 })],
       Payload.gameEnd [("h", { name := "H", score := 2 })],
       Payload.gameEnd [("h", { name := "H", score := 2 })]] :=
  ⟨by decide, by decide⟩

/-- Claim C5, amended: (1) along every trace, once a game's cursor has
reached the announced total, no further `question` is broadcast for that
game (the round-index automaton accepts every stream).  (2) In every
execution in which `startGame` is never invoked while a deferred
round-advance is pending, at most one `gameEnd` is broadcast per game
segment (without that restriction a stale timer can produce a second one).
(3) A deferred advance firing at an exhausted cursor broadcasts exactly
`gameEnd {players}` and leaves the registry and socket associations
untouched.  (4) After that, the room remains joinable, and (5) a future
`startGame` by the host is accepted, broadcasting a fresh `gameStart`. -/
theorem claim_C5_gameEndOnce (songs : List Song) :
    (∀ (t : List Event) (r : String),
      ∃ a', segRun (0, 0) (projRoom r (execOut songs initState t)) = some a') ∧
    (∀ (t : List Event) (r : String), cleanTrace songs initState t = true →
      ∃ d', oneEndRun false (projRoom r (execOut songs initState t)) = some d') ∧
    (∀ (s : ServerState) (r : String) (room : Room) (g1 g2 : Nat → Nat)
        (s' : ServerState) (out : List Emit),
      findA s.rooms r = some room →
      room.gameQuestions.length ≤ room.gameIndex →
      step songs s (Event.timerFire r g1 g2) = some (s', out) →
      s'.rooms = s.rooms ∧ s'.socketRoom = s.socketRoom ∧
        out = [⟨Target.toRoom r, Payload.gameEnd room.players⟩]) ∧
    (∀ (s : ServerState) (sid r name : String),
      (findA (onJoinRoom s sid r name).1.rooms r).isSome = true) ∧
    (∀ (s : ServerState) (sid r : String) (room : Room) (gq g1 g2 : Nat → Nat),
      findA s.socketRoom sid = some r → findA s.rooms r = some room →
      room.hostId = some sid →
      ∃ s' out, step songs s (Event.startGame sid gq g1 g2) = some (s', out) ∧
        out.head? = some ⟨Target.toRoom r,
          Payload.gameStart ((shuffleL gq songs).take 10).length⟩) := by
  refine ⟨?_, ?_, ?_, ?_, ?_⟩
  · intro t r
    obtain ⟨a', h, _⟩ := execOut_segRun songs t initState r (0, 0)
      (by intro room h; simp [initState, findA] at h)
    exact ⟨a', h⟩
  · intro t r hclean
    exact execOut_oneEnd songs t initState r false hclean (cInv_init songs r)
  · intro s r room g1 g2 s' out hroom hex hstep
    by_cases hmem : r ∈ s.pending
    · simp only [step, if_pos hmem, Option.some_inj] at hstep
      have hnl : ¬ room.gameIndex < room.gameQuestions.length := by omega
      have hfind : findA ({ s with pending := s.pending.erase r } : ServerState).rooms r
          = some room := hroom
      have hsnr : startNextRound songs g1 g2 { s with pending := s.pending.erase r } r
          = ({ s with pending := s.pending.erase r },
             [⟨Target.toRoom r, Payload.gameEnd room.players⟩]) := by
        simp [startNextRound, hfind, dif_neg hnl]
      rw [hsnr] at hstep
      have h1 : s' = { s with pending := s.pending.erase r } :=
        congrArg Prod.fst hstep.symm
      have h2 : out = [⟨Target.toRoom r, Payload.gameEnd room.players⟩] :=
        congrArg Prod.snd hstep.symm
      subst h1
      exact ⟨rfl, rfl, h2⟩
    · simp [step, hmem] at hstep
  · intro s sid r name
    rw [onJoinRoom_room_found]
    rfl
  · intro s sid r room gq g1 g2 hs hroom hh
    refine ⟨(startNextRound songs g1 g2 { s with rooms := setA s.rooms r (resetRoom room ((shuffleL gq songs).take 10)) } r).1,
      ⟨Target.toRoom r, Payload.gameStart ((shuffleL gq songs).take 10).length⟩ ::
        (startNextRound songs g1 g2 { s with rooms := setA s.rooms r (resetRoom room ((shuffleL gq songs).take 10)) } r).2,
      ?_, rfl⟩
    simp [step, onStartGame, hs, hroom, hh]

/-- Witness for the amended C5: the clean trace `t6` is accepted by the
game-end automaton, and the concrete exhausted-cursor timer fire at `s4`
broadcasts `gameEnd` once, after which the room is joinable and a restart is
accepted. -/
theorem claim_C5_gameEndOnce_witness :
    (cleanTrace songs1 initState t6 = true ∧
      ∃ d', oneEndRun false (projRoom "R" (execOut songs1 initState t6)) = some d') ∧
    ((execStep songs1 s4 (Event.timerFire "R" rand0 rand0)).1.rooms = s4.rooms ∧
      (execStep songs1 s4 (Event.timerFire "R" rand0 rand0)).1.socketRoom
        = s4.socketRoom ∧
      (execStep songs1 s4 (Event.timerFire "R" rand0 rand0)).2
        = [⟨Target.toRoom "R", Payload.gameEnd room4.players⟩]) ∧
    (findA (onJoinRoom s4 "x" "R" "X").1.rooms "R").isSome = true ∧
    (∃ s' out, step songs1 s4 (Event.startGame "h" rand0 rand0 rand0)
        = some (s', out) ∧
      out.head? = some ⟨Target.toRoom "R",
        Payload.gameStart ((shuffleL rand0 songs1).take 10).length⟩) :=
  ⟨⟨by decide, (claim_C5_gameEndOnce songs1).2.1 t6 "R" (by decide)⟩,
   (claim_C5_gameEndOnce songs1).2.2.1 s4 "R" room4 rand0 rand0
     (execStep songs1 s4 (Event.timerFire "R" rand0 rand0)).1
     (execStep songs1 s4 (Event.timerFire "R" rand0 rand0)).2
     (by decide) (by decide) (by decide),
   (claim_C5_gameEndOnce songs1).2.2.2.1 s4 "x" "R" "X",
   (claim_C5_gameEndOnce songs1).2.2.2.2 s4 "h" "R" room4 rand0 rand0 rand0
     (by decide) (by decide) (by decide)⟩

end GuessSong
